import Mathlib

/-!
Verification of the food-truck-dashboard scrape/merge pipeline.

Shallow embedding of the JavaScript sources:
  - scripts/lib/normalize.js  (name normalization, alias resolution, cuisine detection)
  - scripts/lib/dates.js      (Japanese date parsing)
  - scripts/scrape.js         (orchestrator: resolution loop, merge/dedup, persist decisions)
  - scripts/validate.js       (the all-sources-failed validation check)

Modelling conventions:
  - JavaScript strings are modelled as lists of Unicode code points (`JStr`).
    JS strings are UTF-16 sequences; the model identifies a string with its
    code-point sequence, which agrees with UTF-16 for all characters used by
    this repository (no astral-plane characters occur in its data tables).
  - `String.prototype.normalize('NFKC')` is modelled in two phases: a
    character-wise compatibility map `nfkcChar`, covering the compatibility
    characters that occur in this repository's data (fullwidth ASCII forms,
    ideographic space, no-break space) and acting as the identity elsewhere,
    followed by a canonical composition pass `composeChars` that fuses a base
    letter with a following combining mark (table `COMPOSE_ACUTE`, a
    representative subset of the canonical composition table: the acute-accent
    series over vowels).  Composition is what makes renormalization able to
    change a string — e.g. a base letter and a combining acute separated by a
    stripped decoration compose only on the second pass — and it is modelled
    because it decides the idempotence and fallback behaviour of the
    normalizer.  Canonical reordering is not modelled.
  - `String.prototype.toLowerCase` is modelled by ASCII lowercasing
    (`toLowerChar`); the repository's tables contain no non-ASCII cased letters.
  - `Date.now()` (used only in the `generateId` placeholder fallback) is passed
    in explicitly as a natural number `now`.
-/

namespace FoodTruck

/-- A JavaScript string, modelled as its list of code points. -/
abbrev JStr := List Char

/-- The apostrophe character (U+0027), used inside some alias-table keys. -/
def apos : Char := Char.ofNat 39

/-- Membership of a code point in the JS regex class `\s` (also the set removed
by `String.prototype.trim`): space, tab, line feed, vertical tab, form feed,
carriage return, NBSP, ogham space mark, the U+2000..200A spaces, line and
paragraph separators, narrow NBSP, medium mathematical space, ideographic
space, and the byte-order mark. -/
def isJsWhitespace (c : Char) : Bool :=
  let n := c.toNat
  (9 ≤ n && n ≤ 13) || n = 32 || n = 0xa0 || n = 0x1680 ||
  (0x2000 ≤ n && n ≤ 0x200a) || n = 0x2028 || n = 0x2029 ||
  n = 0x202f || n = 0x205f || n = 0x3000 || n = 0xfeff

/-- The JS regex `.` (no `s` flag) matches every code unit except the four
line terminators LF, CR, LS, PS. -/
def isLineTerminator (c : Char) : Bool :=
  let n := c.toNat
  n = 10 || n = 13 || n = 0x2028 || n = 0x2029

/-- Membership in the JS regex class `\w`: ASCII letters, digits, underscore. -/
def isWordChar (c : Char) : Bool :=
  let n := c.toNat
  (97 ≤ n && n ≤ 122) || (65 ≤ n && n ≤ 90) || (48 ≤ n && n ≤ 57) || n = 95

/-- ASCII decimal digit test. -/
def isDigitChar (c : Char) : Bool := 48 ≤ c.toNat && c.toNat ≤ 57

/-- Character-level model of Unicode NFKC, covering the compatibility
characters in this repository's data: fullwidth ASCII variants U+FF01..U+FF5E
map to their ASCII counterparts, the ideographic space U+3000 and the no-break
space U+00A0 map to a plain space, and every other character maps to itself. -/
def nfkcChar (c : Char) : Char :=
  let n := c.toNat
  if 0xff01 ≤ n && n ≤ 0xff5e then Char.ofNat (n - 0xfee0)
  else if n = 0x3000 || n = 0xa0 then ' '
  else c

/-- Canonical composition pairs modelled: base letter + combining acute
accent U+0301 composes to the precomposed letter (representative subset of
the Unicode canonical composition table). -/
def COMPOSE_ACUTE : List (Char × Char) :=
  [('a', 'á'), ('e', 'é'), ('i', 'í'), ('o', 'ó'), ('u', 'ú'),
   ('A', 'Á'), ('E', 'É'), ('I', 'Í'), ('O', 'Ó'), ('U', 'Ú')]

/-- The combining marks handled by the modelled composition table. -/
def isCombiningMark (c : Char) : Bool := c.toNat = 0x301

/-- Canonical composition of one adjacent pair, when the table has it. -/
def composePair (a b : Char) : Option Char :=
  if isCombiningMark b then
    (COMPOSE_ACUTE.find? (fun p => p.1 == a)).map (fun p => p.2)
  else none

/-- Left-to-right canonical composition pass: a pending character is fused
with the next one whenever the table composes them (the fused character can
compose again with what follows), otherwise it is emitted. -/
def composeAux : Char → JStr → JStr
  | a, [] => [a]
  | a, b :: rest =>
    match composePair a b with
    | some c => composeAux c rest
    | none => a :: composeAux b rest

/-- Canonical composition of a whole string. -/
def composeChars : JStr → JStr
  | [] => []
  | a :: rest => composeAux a rest

/-- Model of `str.normalize('NFKC')`: the character-wise compatibility map
followed by the canonical composition pass. -/
def nfkcStr (s : JStr) : JStr := composeChars (s.map nfkcChar)

/-- The decorative characters stripped by `normalizeName`'s character class
`[★☆♪♫❤️🌟✨]`: the five BMP symbols, the variation selector U+FE0F (the second
code unit of the heart emoji), and the star emoji U+1F31F. -/
def isDecoration (c : Char) : Bool :=
  let n := c.toNat
  n = 0x2605 || n = 0x2606 || n = 0x266a || n = 0x266b ||
  n = 0x2764 || n = 0xfe0f || n = 0x1f31f || n = 0x2728

/-- Model of `replace(/[★☆♪♫❤️🌟✨]/g, '')`. -/
def stripDecorations (s : JStr) : JStr := s.filter (fun c => !isDecoration c)

/-- Worker for whitespace-run collapsing; `sawWs` records whether the previous
character belonged to a whitespace run already emitted as a single space. -/
def collapseWsAux : Bool → JStr → JStr
  | _, [] => []
  | sawWs, c :: rest =>
    if isJsWhitespace c then
      if sawWs then collapseWsAux true rest
      else ' ' :: collapseWsAux true rest
    else c :: collapseWsAux false rest

/-- Model of `replace(/\s+/g, ' ')`: every maximal whitespace run becomes one
space. -/
def collapseWs (s : JStr) : JStr := collapseWsAux false s

/-- Model of `String.prototype.trim`: drop leading and trailing whitespace. -/
def jsTrim (s : JStr) : JStr :=
  ((s.dropWhile isJsWhitespace).reverse.dropWhile isJsWhitespace).reverse

/-- ASCII lowercasing, the model of `String.prototype.toLowerCase` (the
repository's data contains no non-ASCII cased letters). -/
def toLowerChar (c : Char) : Char :=
  if 65 ≤ c.toNat && c.toNat ≤ 90 then Char.ofNat (c.toNat + 32) else c

/-- Function `normalizeName` from scripts/lib/normalize.js: NFKC-normalize, strip
decorative characters, collapse whitespace runs, trim, lowercase. -/
def normalizeName (raw : JStr) : JStr :=
  ((jsTrim (collapseWs (stripDecorations (nfkcStr raw))))).map toLowerChar

/-- Worker for `replace(/\s+/g, '-')` in `generateId`. -/
def wsToHyphenAux : Bool → JStr → JStr
  | _, [] => []
  | sawWs, c :: rest =>
    if isJsWhitespace c then
      if sawWs then wsToHyphenAux true rest
      else '-' :: wsToHyphenAux true rest
    else c :: wsToHyphenAux false rest

/-- Model of `replace(/\s+/g, '-')`. -/
def wsToHyphen (s : JStr) : JStr := wsToHyphenAux false s

/-- Worker for the hyphen-run replace (regex: one or more hyphens, global) with a single hyphen in `generateId`. -/
def collapseHyphensAux : Bool → JStr → JStr
  | _, [] => []
  | sawHy, c :: rest =>
    if c = '-' then
      if sawHy then collapseHyphensAux true rest
      else '-' :: collapseHyphensAux true rest
    else c :: collapseHyphensAux false rest

/-- Model of the hyphen-run replace (regex: one or more hyphens, global) with a single hyphen. -/
def collapseHyphens (s : JStr) : JStr := collapseHyphensAux false s

/-- Drop one leading hyphen if present (helper for the anchor trim). -/
def dropLeadHyphen (s : JStr) : JStr :=
  match s with
  | c :: rest => if c = '-' then rest else s
  | [] => []

/-- Model of `replace(/^-|-$/g, '')`: the regex removes one leading hyphen and
one trailing hyphen (each anchor can match at most once). -/
def trimOneHyphen (s : JStr) : JStr :=
  (dropLeadHyphen (dropLeadHyphen s).reverse).reverse

/-- The slug computation of `generateId` before the timestamp fallback:
normalize, keep only word characters, whitespace and hyphens
(`replace(/[^\w\s-]/g, '')`), turn whitespace runs into hyphens, collapse
hyphen runs, trim one leading/trailing hyphen. -/
def generateIdCore (name : JStr) : JStr :=
  trimOneHyphen (collapseHyphens (wsToHyphen
    ((normalizeName name).filter
      (fun c => isWordChar c || isJsWhitespace c || c = '-'))))

/-- Function `generateId` from scripts/lib/normalize.js.  The `|| truck-Date.now()`
fallback fires exactly when the slug is empty; the clock reading is the
explicit argument `now`. -/
def generateId (now : Nat) (name : JStr) : JStr :=
  let r := generateIdCore name
  if r.isEmpty then "truck-".toList ++ Nat.toDigits 10 now else r

/-- The `ALIASES` table of scripts/lib/normalize.js, in source order, as an
association list from normalized scraped name to truck id.  Keys containing an
apostrophe are assembled around `apos` (string-literal restriction only). -/
def ALIASES : List (JStr × JStr) := [
  ("キッチンあがいてぃーら".toList, "kitchen-agaityla".toList),
  ("グリルキッチンbesideu".toList, "beside-u".toList),
  ("レオ ストリート キッチン".toList, "leo-street".toList),
  ("レオストリートキッチン".toList, "leo-street".toList),
  ("lino marama cafe".toList, "lino-marama".toList),
  ("mikaバインミー".toList, "mika-banhmi".toList),
  ("東京ricordo".toList, "ricordo".toList),
  ("+spice".toList, "plus-spice".toList),
  ("蓮 ren".toList, "ren".toList),
  ("和tokyo".toList, "wa-tokyo".toList),
  ("台湾佐記麺線".toList, "taiwan-saki".toList),
  ("mr.chicken★torihanten".toList, "mr-chicken".toList),
  ("mr.chicken torihanten".toList, "mr-chicken".toList),
  ("mr.chicken".toList, "mr-chicken".toList),
  ("ボナペティ".toList, "bonappetit".toList),
  ("bt massaru".toList, "bt-massaru".toList),
  ("kusina personal by an".toList, "kusina".toList),
  ("anne&may".toList, "anne-may".toList),
  ("サンドリヨン".toList, "sandoriyon".toList),
  ("アイランド".toList, "island".toList),
  ("鳳".toList, "otori".toList),
  ("まま事屋".toList, "mamagoto".toList),
  ("senor coppe".toList, "senor-coppe".toList),
  ("señor coppe".toList, "senor-coppe".toList),
  ("cucina daino".toList, "daino".toList),
  ("smile tokyo".toList, "smile-tokyo".toList),
  ("ラハイナテーブル".toList, "lahaina".toList),
  ("西京屋 周".toList, "saikyoya".toList),
  ("西京屋　周".toList, "saikyoya".toList),
  ("祥福堂".toList, "shofukudo".toList),
  ("churrascaria que bom!".toList, "quebom".toList),
  ("長崎屋".toList, "nagasakiya".toList),
  ("ジュリーズスパイス".toList, "julies-spice".toList),
  ("ごっさむ".toList, "gossam".toList),
  ("アジアンフード".toList, "asian-food".toList),
  ("ミラーン".toList, "millan".toList),
  ("ビストロカルロス".toList, "bistro-carlos".toList),
  ("パパガヤデリ".toList, "papagaya-deli".toList),
  ("鳳唐揚げ弁当".toList, "otori".toList),
  ("parlor zono".toList, "parlor-zono".toList),
  ("island kitchen".toList, "island-kitchen".toList),
  ("食堂新".toList, "shokudo-shin".toList),
  ("caffe latte".toList, "caffe-latte".toList),
  ("box lunch casa".toList, "box-lunch-casa".toList),
  ("キッチンカーたこみーと".toList, "tacomeat".toList),
  ("grace lei".toList, "grace-lei".toList),
  ("keiki beach 83".toList, "keiki-beach".toList),
  ("韓美味".toList, "truck-1771400426440".toList),
  ("たこみーと".toList, "truck-1771400426441".toList),
  ("mr.chicken 鶏飯店".toList, "mrchicken".toList),
  ("18".toList ++ apos :: "s kitchen & market".toList, "18s-kitchen-market".toList),
  ("ここにぎり".toList, "truck-1771400426442".toList),
  ("dandy lion kitchen".toList, "dandy-lion-kitchen".toList),
  ("ふくの鳥".toList, "48-484".toList),
  ("dublin 7 food truck".toList, "dublin-7-food-truck".toList),
  ("wellvide".toList, "wellvide".toList),
  ("okilab".toList, "okilab".toList),
  ("おきらぼ".toList, "okilab".toList),
  ("むら川".toList, "truck-1771400426443".toList),
  ("2nd base".toList, "2nd-base".toList),
  ("おばんざいバル つむぎ".toList, "truck-1771400426444".toList),
  ("おばんざいバル".toList, "truck-1771400426444".toList),
  ("早稲田ゴールデン".toList, "truck-1771400426445".toList),
  ("chopi rich".toList, "chopi-rich".toList),
  ("waka".toList ++ apos :: "s kitchen".toList, "wakas-kitchen".toList),
  ("waka".toList ++ apos :: "s  kitchen".toList, "wakas-kitchen".toList),
  ("mogu mogu stand".toList, "mogu-mogu-stand".toList),
  ("burn.".toList, "burn".toList),
  ("mos burger kitchen car".toList, "mos5050th-mos".toList),
  ("mos50".toList, "mos5050th-mos".toList),
  ("モスのキッチンカー「mos50一号車」".toList, "mos5050th-mos".toList),
  ("まごころkitchen ととちゃん".toList, "kitchen".toList),
  ("ぞうさん食堂".toList, "truck-1771400426447".toList),
  ("海鮮ボンクラージュ".toList, "truck-1771418341566".toList),
  ("kuokoa".toList, "kuokoa".toList),
  ("カーニャパッソ".toList, "truck-1771418341569".toList),
  ("ピエニ キッサ".toList, "truck-1771405545500".toList)]

/-- Own-property lookup `ALIASES[normalized]` (keys are unique, so
first-match association lookup coincides with JS object lookup; the JS
truthiness guard `if (aliasId)` is `isSome` since every value is non-empty). -/
def aliasLookup (s : JStr) : Option JStr :=
  (ALIASES.find? (fun p => p.1 == s)).map (fun p => p.2)

/-- Does `hay` start with `needle`? (helper for `jsIncludes`). -/
def hasLead : JStr → JStr → Bool
  | _, [] => true
  | [], _ :: _ => false
  | c :: cs, d :: ds => c == d && hasLead cs ds

/-- Model of `hay.includes(needle)`: contiguous-substring containment. -/
def jsIncludes : JStr → JStr → Bool
  | [], needle => hasLead [] needle
  | hay@(_ :: t), needle => hasLead hay needle || jsIncludes t needle

/-- A truck registry entry (scripts/lib/normalize.js `createPlaceholder` shape,
matching the Truck typedef of src/lib/types.js). -/
structure Truck where
  id : JStr
  name : JStr
  cuisine : JStr
  cuisine_label : JStr
  contact_instagram : JStr
  accepts_preorder : Bool
  url : JStr
deriving DecidableEq, Repr

/-- Index of the first element satisfying `p` (the JS `Array.prototype.find`
position; we keep the index so the orchestrator can model in-place mutation). -/
def findFirstIdx (p : α → Bool) : List α → Option Nat
  | [] => none
  | a :: l => if p a then some 0 else (findFirstIdx p l).map (· + 1)

/-- The substring-tier test of `findMatch` for one candidate: the shorter of
the two normalized strings must have length at least 4, and one must contain
the other. -/
def substringHit (normalized existingNorm : JStr) : Bool :=
  decide (4 ≤ min normalized.length existingNorm.length) &&
    (jsIncludes normalized existingNorm || jsIncludes existingNorm normalized)

/-- Function `findMatch` from scripts/lib/normalize.js, returning the index of the
matched registry entry: alias-table tier, then exact-normalized tier, then
substring tier, then generated-slug tier; `none` if no tier matches. -/
def findMatchIdx (now : Nat) (rawName : JStr) (trucks : List Truck) : Option Nat :=
  let normalized := normalizeName rawName
  let aliasTier : Option Nat :=
    match aliasLookup normalized with
    | some aliasId => findFirstIdx (fun t => t.id == aliasId) trucks
    | none => none
  let exactTier := findFirstIdx (fun t => normalizeName t.name == normalized) trucks
  let subTier := findFirstIdx (fun t => substringHit normalized (normalizeName t.name)) trucks
  let slugTier := findFirstIdx (fun t => t.id == generateId now rawName) trucks
  (((aliasTier.orElse (fun _ => exactTier)).orElse (fun _ => subTier)).orElse
    (fun _ => slugTier))

/-- Function `findMatch` as the source returns it: the matched `Truck` itself. -/
def findMatch (now : Nat) (rawName : JStr) (trucks : List Truck) : Option Truck :=
  (findMatchIdx now rawName trucks).bind (fun i => trucks.get? i)

/-- One entry of the ordered `CUISINE_KEYWORDS` taxonomy. -/
structure CuisineCategory where
  key : JStr
  label : JStr
  keywords : List JStr
deriving DecidableEq, Repr

/-- The `CUISINE_KEYWORDS` table of scripts/lib/normalize.js, in source order:
specific cuisines first, broad categories later, `western` last. -/
def CUISINE_KEYWORDS : List CuisineCategory := [
  ⟨"hawaiian".toList, "ハワイアン".toList,
    ["hawaii".toList, "poke".toList, "loco".toList, "ポキ".toList, "ロコモコ".toList, "aloha".toList]⟩,
  ⟨"kebab".toList, "ケバブ".toList,
    ["kebab".toList, "ケバブ".toList, "ハラル".toList, "halal".toList, "ファラフェル".toList, "falafel".toList]⟩,
  ⟨"korean".toList, "韓国料理".toList,
    ["korea".toList, "bibimbap".toList, "pocha".toList, "韓国".toList, "ビビンバ".toList, "ポチャ".toList, "チヂミ".toList, "k-food".toList, "韓美味".toList]⟩,
  ⟨"vietnamese".toList, "ベトナム".toList,
    ["vietnam".toList, "banh mi".toList, "pho".toList, "ベトナム".toList, "バインミー".toList, "フォー".toList]⟩,
  ⟨"okinawan".toList, "沖縄料理".toList,
    ["okinawa".toList, "taco".toList, "spam".toList, "沖縄".toList, "タコライス".toList]⟩,
  ⟨"chinese".toList, "中華".toList,
    ["chinese".toList, "gyoza".toList, "dimsum".toList, "中華".toList, "餃子".toList, "麻婆".toList, "炒飯".toList, "魯肉飯".toList]⟩,
  ⟨"italian".toList, "イタリアン".toList,
    ["pizza".toList, "pasta".toList, "lasagna".toList, "italian".toList, "ピザ".toList, "パスタ".toList, "ラザニア".toList, "イタリアン".toList, "sicil".toList]⟩,
  ⟨"chicken".toList, "チキン".toList,
    ["chicken".toList, "チキン".toList, "唐揚".toList, "からあげ".toList, "ロティサリー".toList, "rotisserie".toList, "鷄".toList, "照り焼きチキン".toList, "テリヤキチキン".toList]⟩,
  ⟨"curry".toList, "カレー".toList,
    ["curry".toList, "カレー".toList, "インド".toList, "ビリヤニ".toList, "biryani".toList, "スパイスカレー".toList, "カリー".toList]⟩,
  ⟨"meat".toList, "肉料理".toList,
    ["beef".toList, "meat".toList, "steak".toList, "hamburg".toList, "shalasco".toList, "que bom".toList, "lamb".toList, "pork".toList, "肉".toList, "ステーキ".toList, "ハンバーグ".toList, "シュラスコ".toList, "牛".toList, "焼肉".toList, "boucherie".toList, "ローストポーク".toList, "豚".toList, "ホルモン".toList]⟩,
  ⟨"asian".toList, "アジアン".toList,
    ["asian".toList, "thai".toList, "gapao".toList, "nasi".toList, "adobo".toList, "taiwan".toList, "アジアン".toList, "タイ".toList, "ガパオ".toList, "ナシゴレン".toList, "アドボ".toList, "台湾".toList, "ルーロー".toList, "ナンロール".toList, "ナン".toList, "スパイス".toList]⟩,
  ⟨"bread".toList, "パン".toList,
    ["bread".toList, "sandwich".toList, "hotdog".toList, "burger".toList, "パン".toList, "サンド".toList, "バーガー".toList, "ドッグ".toList, "coppe".toList, "ホットドッグ".toList, "ホットドック".toList, "スラッピージョー".toList]⟩,
  ⟨"japanese".toList, "和食".toList,
    ["japanese".toList, "sushi".toList, "tempura".toList, "和食".toList, "寿司".toList, "丼".toList, "天ぷら".toList, "うどん".toList, "そば".toList, "鰻".toList, "西京".toList, "魚".toList, "かつ丼".toList, "カツ".toList, "やきそば".toList, "焼きそば".toList, "おばんざい".toList, "にぎり".toList]⟩,
  ⟨"sweets".toList, "スイーツ".toList,
    ["crepe".toList, "sweets".toList, "coffee".toList, "クレープ".toList, "スイーツ".toList, "カフェ".toList, "crakey".toList]⟩,
  ⟨"western".toList, "洋食".toList,
    ["western".toList, "omurice".toList, "bistro".toList, "洋食".toList, "オムライス".toList]⟩]

/-- The category scan of `detectCuisine`: return the key/label of the first
category one of whose keywords occurs in the combined text, else unknown. -/
def detectScan (combined : JStr) : List CuisineCategory → JStr × JStr
  | [] => ("unknown".toList, "?".toList)
  | cat :: rest =>
    if cat.keywords.any (fun k => jsIncludes combined k) then (cat.key, cat.label)
    else detectScan combined rest

/-- Function `detectCuisine` from scripts/lib/normalize.js: normalize the concatenation
of name, a space and the extra text, then scan the ordered keyword taxonomy. -/
def detectCuisine (name : JStr) (extraText : JStr) : JStr × JStr :=
  detectScan (normalizeName (name ++ ' ' :: extraText)) CUISINE_KEYWORDS

/-- Function `createPlaceholder` from scripts/lib/normalize.js. -/
def createPlaceholder (now : Nat) (rawName : JStr) (extraText : JStr) : Truck :=
  let dc := detectCuisine rawName extraText
  { id := generateId now rawName
    name := jsTrim rawName
    cuisine := dc.1
    cuisine_label := dc.2
    contact_instagram := []
    accepts_preorder := false
    url := [] }

/-- Take exactly `n` leading ASCII digits, returning them and the rest. -/
def takeDigits : Nat → JStr → Option (JStr × JStr)
  | 0, s => some ([], s)
  | _ + 1, [] => none
  | n + 1, c :: rest =>
    if isDigitChar c then (takeDigits n rest).map (fun p => (c :: p.1, p.2)) else none

/-- Matcher for the regex fragment of scripts/lib/dates.js matching one or two
digits, a slash, one or two digits, then end of input (both quantifiers greedy,
with backtracking: two digits are preferred, falling back to one). -/
def matchMD (r : JStr) : Option (JStr × JStr) :=
  let attempt : Nat → Option (JStr × JStr) := fun n =>
    match takeDigits n r with
    | some (g2, '/' :: r2) =>
      (match takeDigits 2 r2 with
       | some (g3, []) => some (g2, g3)
       | _ =>
         match takeDigits 1 r2 with
         | some (g3, []) => some (g2, g3)
         | _ => none)
    | _ => none
  (attempt 2).orElse (fun _ => attempt 1)

/-- Matcher for the first regex of `parseJapaneseDate`: an optional 4-digit
year group, an optional slash, then the month/day fragment, anchored at both
ends.  Alternatives are tried in the regex backtracking order: year group
present before absent, optional slash present before absent. -/
def matchRegex1 (s : JStr) : Option (Option JStr × JStr × JStr) :=
  let withG1 : Option (Option JStr × JStr × JStr) :=
    match takeDigits 4 s with
    | some (g1, r) =>
      (match (match r with
              | '/' :: r2 => matchMD r2
              | _ => none) with
       | some p => some (some g1, p.1, p.2)
       | none =>
         match matchMD r with
         | some p => some (some g1, p.1, p.2)
         | none => none)
    | none => none
  withG1.orElse (fun _ =>
    let afterSlash : Option (Option JStr × JStr × JStr) :=
      match s with
      | c :: r2 => if c = '/' then (matchMD r2).map (fun p => (none, p.1, p.2)) else none
      | [] => none
    afterSlash.orElse (fun _ => (matchMD s).map (fun p => (none, p.1, p.2))))

def isOpenParen (c : Char) : Bool := c = '(' || c = '（'

def isCloseParen (c : Char) : Bool := c = ')' || c = '）'

/-- After an opening paren, search for the earliest closing paren preceded by
at least one matched character; regex dot does not match line terminators, so
hitting one fails this starting position.  `consumed` records whether the
non-greedy one-or-more-characters part has matched at least one character. -/
def closeSearch (consumed : Bool) : JStr → Option JStr
  | [] => none
  | c :: rest =>
    if isCloseParen c && consumed then some rest
    else if isLineTerminator c then none
    else closeSearch true rest

/-- Model of the non-global `replace` removing the first day-of-week
annotation such as a parenthesized weekday: the leftmost position where an
opening paren is followed by at least one character and then a closing paren
has that whole span deleted; everything else is kept verbatim. -/
def stripParenFrom : JStr → JStr
  | [] => []
  | c :: rest =>
    if isOpenParen c then
      match closeSearch false rest with
      | some rest2 => rest2
      | none => c :: stripParenFrom rest
    else c :: stripParenFrom rest

/-- Model of `String.prototype.padStart(2, '0')`. -/
def pad2 (s : JStr) : JStr :=
  if s.length ≥ 2 then s else List.replicate (2 - s.length) '0' ++ s

/-- Function `parseJapaneseDate` from scripts/lib/dates.js.  The `year` argument models
the effective year (the source defaults a missing/falsy year to the current
year; the model always receives the effective value).  The day-of-week
annotation is stripped, the string trimmed, then the two anchored regexes are
tried in order; matched components are zero-padded and joined with hyphens
with no calendar-range validation. -/
def parseJapaneseDate (str : JStr) (year : Nat) : Option JStr :=
  let cleaned := jsTrim (stripParenFrom str)
  match matchRegex1 cleaned with
  | some (g1, m, d) =>
    let y := match g1 with
      | some g => g
      | none => Nat.toDigits 10 year
    some (y ++ '-' :: (pad2 m ++ '-' :: pad2 d))
  | none =>
    match matchMD cleaned with
    | some (m, d) =>
      some (Nat.toDigits 10 year ++ '-' :: (pad2 m ++ '-' :: pad2 d))
    | none => none

/-- A raw adapter observation as consumed by the orchestrator's resolution
loop; a missing `detail_text` is the empty string (the source's
`raw.detail_text || ''` is the identity on this model since the empty string
is the only falsy string). -/
structure RawObs where
  date : JStr
  venue_id : JStr
  truck_name_raw : JStr
  detail_text : JStr
deriving DecidableEq, Repr

/-- A persisted schedule entry; it consists of exactly the
(date, venue_id, truck_id) triple. -/
structure Entry where
  date : JStr
  venue_id : JStr
  truck_id : JStr
deriving DecidableEq, Repr

/-- The dedup key of scripts/scrape.js step 7: date, venue id and truck id
joined with the pipe character. -/
def entryKey (e : Entry) : JStr :=
  e.date ++ '|' :: (e.venue_id ++ '|' :: e.truck_id)

/-- The merge filter of scripts/scrape.js step 7: keep an entry when its key
has not been seen, recording kept keys. -/
def dedupAux (seen : List JStr) : List Entry → List Entry
  | [] => []
  | e :: rest =>
    if seen.contains (entryKey e) then dedupAux seen rest
    else e :: dedupAux (entryKey e :: seen) rest

/-- Deduplication of a combined schedule list, first occurrence per key wins. -/
def dedupEntries (l : List Entry) : List Entry := dedupAux [] l

/-- The merge step: concatenate carried-over prior entries with newly resolved
entries, then deduplicate. -/
def mergeEntries (prior newEntries : List Entry) : List Entry :=
  dedupEntries (prior ++ newEntries)

/-- The unknown-cuisine upgrade of scripts/scrape.js step 6 (both the matched
branch and the id-collision branch): when the stored cuisine is unknown and
detail text is present, re-run detection on the truck's own name plus the
detail text and keep a non-unknown result. -/
def upgradeCuisine (t : Truck) (detailText : JStr) : Truck :=
  if t.cuisine == "unknown".toList && !detailText.isEmpty then
    let dc := detectCuisine t.name detailText
    if dc.1 ≠ "unknown".toList then
      { t with cuisine := dc.1, cuisine_label := dc.2 }
    else t
  else t

/-- State of the resolution loop: the working truck array (the source mutates
it in place; here each mutation is an index update), the count of appended
placeholders, and the resolved schedule entries in emission order. -/
structure ResolveState where
  trucks : List Truck
  newTruckCount : Nat
  entries : List Entry
deriving Repr

instance : Inhabited Truck := ⟨⟨[], [], [], [], [], false, []⟩⟩

/-- One iteration of the resolution loop of scripts/scrape.js step 6.  A
matched truck is updated in place (list update at the matched index); on no
match a placeholder is built, and either an id-colliding existing truck is
reused (with the same upgrade logic) or the placeholder is appended. -/
def resolveStep (now : Nat) (st : ResolveState) (raw : RawObs) : ResolveState :=
  let detailText := raw.detail_text
  match findMatchIdx now raw.truck_name_raw st.trucks with
  | some i =>
    let t := (st.trucks.get? i).getD default
    let t2 := upgradeCuisine t detailText
    { st with trucks := st.trucks.set i t2,
              entries := st.entries ++ [⟨raw.date, raw.venue_id, t2.id⟩] }
  | none =>
    let placeholder := createPlaceholder now raw.truck_name_raw detailText
    match findFirstIdx (fun t => t.id == placeholder.id) st.trucks with
    | some j =>
      let e := (st.trucks.get? j).getD default
      let e2 := upgradeCuisine e detailText
      { st with trucks := st.trucks.set j e2,
                entries := st.entries ++ [⟨raw.date, raw.venue_id, e2.id⟩] }
    | none =>
      { trucks := st.trucks ++ [placeholder],
        newTruckCount := st.newTruckCount + 1,
        entries := st.entries ++ [⟨raw.date, raw.venue_id, placeholder.id⟩] }

/-- The result `runWithRetry` hands back for one venue (always a fulfilled
value: every failure is caught inside and reported as status error with an
empty entry list). -/
structure SourceResult where
  venueId : JStr
  status : JStr
  entries : List RawObs
  error : Option JStr
deriving DecidableEq, Repr

/-- One record of the persisted `source_runs` log. -/
structure SourceRun where
  venue_id : JStr
  status : JStr
  entries_count : Nat
  error : Option JStr
deriving DecidableEq, Repr

/-- The `cuisineUpdated` computation of scripts/scrape.js lines 246-249.
Because `trucks` was created as a shallow copy (spread) of
`trucksData.trucks`, index `i` of both arrays references the same truck
object for every `i` below the original length, and in-place cuisine
mutations are visible through both references; appending placeholders to
`trucks` does not lengthen `trucksData.trucks`.  So the `orig` the code reads
is the post-mutation truck itself when `i` is in range, and undefined (the
guard `orig &&` short-circuiting to false) otherwise.  The first argument of
the worker is the view the code has of `trucksData.trucks`, namely the first
`origLen` elements of the final working array. -/
def cuisineUpdatedAux (origView : List Truck) (i : Nat) : List Truck → Bool
  | [] => false
  | t :: rest =>
    (match origView.get? i with
     | some orig => orig.cuisine ≠ t.cuisine
     | none => false) || cuisineUpdatedAux origView (i + 1) rest

/-- The some-with-index scan of the trucks-file write decision. -/
def cuisineUpdatedCheck (finalTrucks : List Truck) (origLen : Nat) : Bool :=
  cuisineUpdatedAux (finalTrucks.take origLen) 0 finalTrucks

/-- The outcome of one orchestrator run that the claims talk about: the run
log, the merged schedule, the final registry, and the write/abort decisions.
`scheduleWritten` is `true` by construction because the schedule write of
scripts/scrape.js line 272 is unconditional, and `fatal` is `false` because no
code path of `main` between scraping and persisting throws (scraper failures
are caught inside `runWithRetry` and returned as error-status results). -/
structure PipelineOutcome where
  sourceRuns : List SourceRun
  schedule : List Entry
  finalTrucks : List Truck
  newTruckCount : Nat
  trucksWritten : Bool
  scheduleWritten : Bool
  fatal : Bool
deriving Repr

/-- The `main` pipeline of scripts/scrape.js from the point where all scraper
promises have settled: build the run log, resolve every raw observation,
merge and deduplicate, and take the two persistence decisions.  `results` are
the per-venue values produced by `runWithRetry` (all fulfilled, as the source
notes); `trucksDataTrucks` is the loaded registry and `existingEntries` the
window-filtered prior schedule. -/
def main (now : Nat) (trucksDataTrucks : List Truck) (existingEntries : List Entry)
    (results : List SourceResult) : PipelineOutcome :=
  let sourceRuns := results.map (fun r =>
    { venue_id := r.venueId, status := r.status,
      entries_count := r.entries.length, error := r.error : SourceRun })
  let allRawEntries := results.flatMap (fun r => r.entries)
  let st := allRawEntries.foldl (resolveStep now) ⟨trucksDataTrucks, 0, []⟩
  let dedupedSchedule := mergeEntries existingEntries st.entries
  let cuisineUpdated := cuisineUpdatedCheck st.trucks trucksDataTrucks.length
  { sourceRuns := sourceRuns
    schedule := dedupedSchedule
    finalTrucks := st.trucks
    newTruckCount := st.newTruckCount
    trucksWritten := decide (0 < st.newTruckCount) || cuisineUpdated
    scheduleWritten := true
    fatal := false }

/-- The all-scrapers-failed check of scripts/validate.js lines 50-59: true
exactly when it pushes the blocking error (non-zero exit): every run has
status error and there is at least one run. -/
def validateAllScrapersFailed (runs : List SourceRun) : Bool :=
  let failed := runs.filter (fun r => r.status == "error".toList)
  failed.length == runs.length && decide (0 < runs.length)

/-- Claim-side definition, following the spec's words for the merge
invariant: keep exactly the first occurrence of each (date, venue_id,
truck_id) triple (an `Entry` is precisely that triple, so this is
keep-first-occurrence by value). -/
def specDedupFirstAux (seen : List Entry) : List Entry → List Entry
  | [] => []
  | e :: rest =>
    if seen.contains e then specDedupFirstAux seen rest
    else e :: specDedupFirstAux (e :: seen) rest

/-- Keep the first occurrence of each triple (spec-side reference dedup). -/
def specDedupFirst (l : List Entry) : List Entry := specDedupFirstAux [] l

/-- No pipe character (the dedup-key delimiter) occurs in the string. -/
def pipeFree (s : JStr) : Bool := s.all (fun c => c ≠ '|')

/-- All three fields of the entry are free of the dedup-key delimiter. -/
def entryPipeFree (e : Entry) : Bool :=
  pipeFree e.date && pipeFree e.venue_id && pipeFree e.truck_id

/-- Numeric value of a digit string. -/
def digitsVal (s : JStr) : Nat := s.foldl (fun a c => 10 * a + (c.toNat - 48)) 0

/-- Gregorian leap-year rule (claim-side, for stating calendar validity). -/
def isLeapYear (y : Nat) : Bool := (y % 4 = 0 && y % 100 ≠ 0) || y % 400 = 0

/-- Number of days of month `m` of year `y` (claim-side). -/
def daysInMonth (y m : Nat) : Nat :=
  if m = 2 then (if isLeapYear y then 29 else 28)
  else if m = 4 || m = 6 || m = 9 || m = 11 then 30
  else 31

/-- Claim-side validity of a YYYY-MM-DD string as a real calendar date. -/
def validDateString (s : JStr) : Bool :=
  match s with
  | [y1, y2, y3, y4, '-', m1, m2, '-', d1, d2] =>
    ([y1, y2, y3, y4, m1, m2, d1, d2].all isDigitChar) &&
    (let y := digitsVal [y1, y2, y3, y4]
     let m := digitsVal [m1, m2]
     let d := digitsVal [d1, d2]
     1 ≤ m && m ≤ 12 && 1 ≤ d && d ≤ daysInMonth y m)
  | _ => false

/-- The seen-set reached after the dedup filter has processed a list
(proof device mirroring the recursion of `dedupAux`). -/
def dedupSeen (seen : List JStr) : List Entry → List JStr
  | [] => seen
  | e :: rest =>
    if seen.contains (entryKey e) then dedupSeen seen rest
    else dedupSeen (entryKey e :: seen) rest

/-- Claim-side character class of C3 as stated: lowercase letters, digits,
hyphen (the set matched by the regex a-z, 0-9, hyphen). -/
def claimIdChar (c : Char) : Bool :=
  (97 ≤ c.toNat && c.toNat ≤ 122) || (48 ≤ c.toNat && c.toNat ≤ 57) || c.toNat = 45

/-- Amended character class for C3: the code keeps every word character, so
underscores (code point 95) also appear in generated ids. -/
def amendedIdChar (c : Char) : Bool :=
  (97 ≤ c.toNat && c.toNat ≤ 122) || (48 ≤ c.toNat && c.toNat ≤ 57) ||
  c.toNat = 95 || c.toNat = 45

/-! General character-level lemmas. -/

theorem char_toNat_ofNat {n : Nat} (h : n < 55296) : (Char.ofNat n).toNat = n := by
  unfold Char.ofNat
  rw [dif_pos (Or.inl h)]
  simp [Char.ofNatAux, Char.toNat, UInt32.toNat]

theorem char_eq_of_toNat {a b : Char} (h : a.toNat = b.toNat) : a = b :=
  Char.eq_of_val_eq (UInt32.ext h)

theorem isJsWhitespace_iff (c : Char) : isJsWhitespace c = true ↔
    ((9 ≤ c.toNat ∧ c.toNat ≤ 13) ∨ c.toNat = 32 ∨ c.toNat = 0xa0 ∨ c.toNat = 0x1680 ∨
     (0x2000 ≤ c.toNat ∧ c.toNat ≤ 0x200a) ∨ c.toNat = 0x2028 ∨ c.toNat = 0x2029 ∨
     c.toNat = 0x202f ∨ c.toNat = 0x205f ∨ c.toNat = 0x3000 ∨ c.toNat = 0xfeff) := by
  simp only [isJsWhitespace, Bool.or_eq_true, Bool.and_eq_true, decide_eq_true_eq]
  tauto

theorem isDecoration_iff (c : Char) : isDecoration c = true ↔
    (c.toNat = 0x2605 ∨ c.toNat = 0x2606 ∨ c.toNat = 0x266a ∨ c.toNat = 0x266b ∨
     c.toNat = 0x2764 ∨ c.toNat = 0xfe0f ∨ c.toNat = 0x1f31f ∨ c.toNat = 0x2728) := by
  simp only [isDecoration, Bool.or_eq_true, decide_eq_true_eq]
  tauto

theorem isWordChar_iff (c : Char) : isWordChar c = true ↔
    ((97 ≤ c.toNat ∧ c.toNat ≤ 122) ∨ (65 ≤ c.toNat ∧ c.toNat ≤ 90) ∨
     (48 ≤ c.toNat ∧ c.toNat ≤ 57) ∨ c.toNat = 95) := by
  simp only [isWordChar, Bool.or_eq_true, Bool.and_eq_true, decide_eq_true_eq]
  tauto

theorem isDigitChar_iff (c : Char) : isDigitChar c = true ↔
    (48 ≤ c.toNat ∧ c.toNat ≤ 57) := by
  simp only [isDigitChar, Bool.and_eq_true, decide_eq_true_eq]

theorem toLowerChar_toNat (c : Char) :
    (toLowerChar c).toNat =
      if 65 ≤ c.toNat ∧ c.toNat ≤ 90 then c.toNat + 32 else c.toNat := by
  unfold toLowerChar
  by_cases h : 65 ≤ c.toNat ∧ c.toNat ≤ 90
  · rw [if_pos (by simp only [Bool.and_eq_true, decide_eq_true_eq]; exact h), if_pos h]
    exact char_toNat_ofNat (by omega)
  · rw [if_neg (by simp only [Bool.and_eq_true, decide_eq_true_eq]; exact h), if_neg h]

theorem toLowerChar_not_upper (c : Char) :
    ¬(65 ≤ (toLowerChar c).toNat ∧ (toLowerChar c).toNat ≤ 90) := by
  rw [toLowerChar_toNat]
  by_cases h : 65 ≤ c.toNat ∧ c.toNat ≤ 90
  · rw [if_pos h]; omega
  · rw [if_neg h]; omega

theorem nfkcChar_toNat_cases (c : Char) :
    (0xff01 ≤ c.toNat ∧ c.toNat ≤ 0xff5e ∧ (nfkcChar c).toNat = c.toNat - 0xfee0) ∨
    ((c.toNat = 0x3000 ∨ c.toNat = 0xa0) ∧ nfkcChar c = ' ') ∨
    (¬(0xff01 ≤ c.toNat ∧ c.toNat ≤ 0xff5e) ∧ ¬(c.toNat = 0x3000 ∨ c.toNat = 0xa0) ∧
      nfkcChar c = c) := by
  unfold nfkcChar
  by_cases h1 : 0xff01 ≤ c.toNat ∧ c.toNat ≤ 0xff5e
  · refine Or.inl ⟨h1.1, h1.2, ?_⟩
    rw [if_pos (by simp only [Bool.and_eq_true, decide_eq_true_eq]; exact h1)]
    exact char_toNat_ofNat (by omega)
  · rw [if_neg (by simp only [Bool.and_eq_true, decide_eq_true_eq]; exact h1)]
    by_cases h2 : c.toNat = 0x3000 ∨ c.toNat = 0xa0
    · refine Or.inr (Or.inl ⟨h2, ?_⟩)
      rw [if_pos (by simp only [Bool.or_eq_true, decide_eq_true_eq]; exact h2)]
    · refine Or.inr (Or.inr ⟨h1, h2, ?_⟩)
      rw [if_neg (by simp only [Bool.or_eq_true, decide_eq_true_eq]; exact h2)]

theorem nfkcChar_eq_self {c : Char}
    (h1 : ¬(0xff01 ≤ c.toNat ∧ c.toNat ≤ 0xff5e))
    (h2 : ¬(c.toNat = 0x3000 ∨ c.toNat = 0xa0)) : nfkcChar c = c := by
  rcases nfkcChar_toNat_cases c with h | h | h
  · exact absurd ⟨h.1, h.2.1⟩ h1
  · exact absurd h.1 h2
  · exact h.2.2

theorem nfkcChar_image_not_domain (c : Char) :
    ¬(0xff01 ≤ (nfkcChar c).toNat ∧ (nfkcChar c).toNat ≤ 0xff5e) ∧
    ¬((nfkcChar c).toNat = 0x3000 ∨ (nfkcChar c).toNat = 0xa0) := by
  rcases nfkcChar_toNat_cases c with h | h | h
  · rcases h with ⟨ha, hb, hc⟩
    rw [hc]
    omega
  · rw [h.2]
    exact ⟨by decide, by decide⟩
  · rw [h.2.2]
    exact ⟨h.1, h.2.1⟩

theorem nfkcChar_idem (c : Char) : nfkcChar (nfkcChar c) = nfkcChar c :=
  nfkcChar_eq_self (nfkcChar_image_not_domain c).1 (nfkcChar_image_not_domain c).2

theorem mem_dropWhile_of_mem {α : Type} {p : α → Bool} {l : List α} {a : α}
    (ha : a ∈ l) (hpa : p a = false) : a ∈ l.dropWhile p := by
  induction l with
  | nil => cases ha
  | cons x xs ih =>
    by_cases hx : p x = true
    · rw [List.dropWhile_cons_of_pos hx]
      rcases List.mem_cons.mp ha with rfl | ha2
      · rw [hpa] at hx
        cases hx
      · exact ih ha2
    · rw [List.dropWhile_cons_of_neg hx]
      exact ha

theorem dropWhile_eq_self_of_all {α : Type} {p : α → Bool} {l : List α}
    (h : ∀ a ∈ l, p a = false) : l.dropWhile p = l := by
  cases l with
  | nil => rfl
  | cons x xs =>
    exact List.dropWhile_cons_of_neg (by simp [h x (List.mem_cons_self x xs)])

theorem findFirstIdx_eq_none {α : Type} {p : α → Bool} {l : List α}
    (h : ∀ a ∈ l, p a = false) : findFirstIdx p l = none := by
  induction l with
  | nil => rfl
  | cons x xs ih =>
    unfold findFirstIdx
    rw [if_neg (by simp [h x (List.mem_cons_self x xs)]),
      ih (fun a ha => h a (List.mem_cons_of_mem x ha))]
    rfl

theorem findFirstIdx_spec {α : Type} {p : α → Bool} {l : List α} {i : Nat}
    (h : findFirstIdx p l = some i) : ∃ a, l.get? i = some a ∧ p a = true := by
  induction l generalizing i with
  | nil => cases h
  | cons x xs ih =>
    unfold findFirstIdx at h
    by_cases hx : p x = true
    · rw [if_pos hx] at h
      cases h
      exact ⟨x, rfl, hx⟩
    · rw [if_neg hx] at h
      cases hi : findFirstIdx p xs with
      | none => rw [hi] at h; cases h
      | some j =>
        rw [hi] at h
        cases h
        exact ih hi

theorem findFirstIdx_isSome {α : Type} {p : α → Bool} {l : List α}
    (h : ∃ a ∈ l, p a = true) : ∃ i, findFirstIdx p l = some i := by
  induction l with
  | nil => rcases h with ⟨a, ha, _⟩; cases ha
  | cons x xs ih =>
    unfold findFirstIdx
    by_cases hx : p x = true
    · exact ⟨0, by rw [if_pos hx]⟩
    · rcases h with ⟨a, ha, hpa⟩
      rcases List.mem_cons.mp ha with rfl | ha2
      · exact absurd hpa hx
      · rcases ih ⟨a, ha2, hpa⟩ with ⟨j, hj⟩
        exact ⟨j + 1, by rw [if_neg hx, hj]; rfl⟩

/-! Lemmas about the merge/dedup step. -/

theorem dedupAux_append (seen : List JStr) (l₁ l₂ : List Entry) :
    dedupAux seen (l₁ ++ l₂) = dedupAux seen l₁ ++ dedupAux (dedupSeen seen l₁) l₂ := by
  induction l₁ generalizing seen with
  | nil => rfl
  | cons e rest ih =>
    by_cases hc : seen.contains (entryKey e) = true
    · simp only [List.cons_append, dedupAux, dedupSeen, if_pos hc]
      exact ih seen
    · simp only [List.cons_append, dedupAux, dedupSeen, if_neg hc, List.append_eq]
      rw [ih (entryKey e :: seen)]

theorem mem_dedupSeen {seen : List JStr} {l : List Entry} {k : JStr} :
    k ∈ dedupSeen seen l ↔ k ∈ seen ∨ k ∈ l.map entryKey := by
  induction l generalizing seen with
  | nil => simp [dedupSeen]
  | cons e rest ih =>
    unfold dedupSeen
    by_cases hc : seen.contains (entryKey e) = true
    · rw [if_pos hc, ih]
      have he : entryKey e ∈ seen := List.elem_iff.mp hc
      simp only [List.map_cons, List.mem_cons]
      constructor
      · rintro (h | h)
        · exact Or.inl h
        · exact Or.inr (Or.inr h)
      · rintro (h | rfl | h)
        · exact Or.inl h
        · exact Or.inl he
        · exact Or.inr h
    · rw [if_neg hc, ih]
      simp only [List.mem_cons, List.map_cons]
      tauto

theorem dedupAux_eq_nil {seen : List JStr} {l : List Entry}
    (h : ∀ e ∈ l, entryKey e ∈ seen) : dedupAux seen l = [] := by
  induction l with
  | nil => rfl
  | cons e rest ih =>
    unfold dedupAux
    rw [if_pos (List.elem_iff.mpr (h e (List.mem_cons_self e rest)))]
    exact ih (fun x hx => h x (List.mem_cons_of_mem e hx))

theorem mem_keys_dedupAux {seen : List JStr} {l : List Entry} {k : JStr} :
    k ∈ (dedupAux seen l).map entryKey ↔ k ∈ l.map entryKey ∧ k ∉ seen := by
  induction l generalizing seen with
  | nil => simp [dedupAux]
  | cons e rest ih =>
    unfold dedupAux
    by_cases hc : seen.contains (entryKey e) = true
    · rw [if_pos hc, ih]
      have he : entryKey e ∈ seen := List.elem_iff.mp hc
      simp only [List.map_cons, List.mem_cons]
      constructor
      · rintro ⟨h1, h2⟩
        exact ⟨Or.inr h1, h2⟩
      · rintro ⟨h1 | h1, h2⟩
        · subst h1
          exact absurd he h2
        · exact ⟨h1, h2⟩
    · rw [if_neg hc]
      have he : entryKey e ∉ seen := fun hmem => hc (List.elem_iff.mpr hmem)
      simp only [List.map_cons, List.mem_cons, ih]
      constructor
      · rintro (rfl | ⟨h1, h2⟩)
        · exact ⟨Or.inl rfl, he⟩
        · exact ⟨Or.inr h1, fun hk => h2 (Or.inr hk)⟩
      · rintro ⟨h1, h2⟩
        by_cases hke : k = entryKey e
        · exact Or.inl hke
        · rcases h1 with rfl | h1
          · exact absurd rfl hke
          · exact Or.inr ⟨h1, fun hk => hk.elim hke h2⟩

theorem keys_dedupAux_nodup (seen : List JStr) (l : List Entry) :
    ((dedupAux seen l).map entryKey).Nodup ∧
      ∀ k ∈ (dedupAux seen l).map entryKey, k ∉ seen := by
  induction l generalizing seen with
  | nil => simp [dedupAux]
  | cons e rest ih =>
    unfold dedupAux
    by_cases hc : seen.contains (entryKey e) = true
    · rw [if_pos hc]
      exact ih seen
    · rw [if_neg hc]
      have he : entryKey e ∉ seen := fun hmem => hc (List.elem_iff.mpr hmem)
      rcases ih (entryKey e :: seen) with ⟨hnd, hns⟩
      simp only [List.map_cons]
      refine ⟨List.nodup_cons.mpr ⟨fun hmem => ?_, hnd⟩, ?_⟩
      · exact hns _ hmem (List.mem_cons_self _ _)
      · intro k hk
        rcases List.mem_cons.mp hk with rfl | hk2
        · exact he
        · exact fun hks => hns k hk2 (List.mem_cons_of_mem _ hks)

theorem dedupAux_eq_self {seen : List JStr} {l : List Entry}
    (hnd : (l.map entryKey).Nodup) (hs : ∀ k ∈ l.map entryKey, k ∉ seen) :
    dedupAux seen l = l := by
  induction l generalizing seen with
  | nil => rfl
  | cons e rest ih =>
    unfold dedupAux
    have he : entryKey e ∉ seen := hs _ (by simp)
    rw [if_neg (fun hc => he (List.elem_iff.mp hc))]
    rw [List.map_cons, List.nodup_cons] at hnd
    refine congrArg (e :: ·) (ih hnd.2 ?_)
    intro k hk
    rcases hnd with ⟨hne, _⟩
    intro hks
    rcases List.mem_cons.mp hks with rfl | hk2
    · exact hne hk
    · exact hs k (List.mem_cons_of_mem _ hk) hk2

/-! Pipe-delimiter injectivity of the dedup key. -/

theorem pipe_split {a : JStr} : ∀ {b u v : JStr}, pipeFree a = true → pipeFree b = true →
    a ++ '|' :: u = b ++ '|' :: v → a = b ∧ u = v := by
  induction a with
  | nil =>
    intro b u v _ hb h
    cases b with
    | nil =>
      simp only [List.nil_append] at h
      exact ⟨rfl, (List.cons.inj h).2⟩
    | cons d b2 =>
      simp only [List.nil_append, List.cons_append] at h
      rcases List.cons.inj h with ⟨rfl, _⟩
      simp [pipeFree] at hb
  | cons c a2 ih =>
    intro b u v ha hb h
    cases b with
    | nil =>
      simp only [List.cons_append, List.nil_append] at h
      rcases List.cons.inj h with ⟨rfl, _⟩
      simp [pipeFree] at ha
    | cons d b2 =>
      simp only [List.cons_append] at h
      rcases List.cons.inj h with ⟨rfl, h2⟩
      simp only [pipeFree, List.all_cons, Bool.and_eq_true] at ha hb
      rcases ih ha.2 hb.2 h2 with ⟨rfl, rfl⟩
      exact ⟨rfl, rfl⟩

theorem entryKey_inj {e₁ e₂ : Entry} (h1 : entryPipeFree e₁ = true)
    (h2 : entryPipeFree e₂ = true) (h : entryKey e₁ = entryKey e₂) : e₁ = e₂ := by
  simp only [entryPipeFree, Bool.and_eq_true] at h1 h2
  unfold entryKey at h
  rcases pipe_split h1.1.1 h2.1.1 h with ⟨hd, h3⟩
  rcases pipe_split h1.1.2 h2.1.2 h3 with ⟨hv, ht⟩
  cases e₁
  cases e₂
  simp_all

theorem dedupAux_eq_specAux {l : List Entry} : ∀ {seenE : List Entry},
    (∀ e ∈ l, entryPipeFree e = true) → (∀ e ∈ seenE, entryPipeFree e = true) →
    dedupAux (seenE.map entryKey) l = specDedupFirstAux seenE l := by
  induction l with
  | nil => intro seenE _ _; rfl
  | cons e rest ih =>
    intro seenE hl hs
    have hpe : entryPipeFree e = true := hl e (List.mem_cons_self e rest)
    have hcontains : (seenE.map entryKey).contains (entryKey e) = seenE.contains e := by
      rw [Bool.eq_iff_iff, List.elem_iff, List.elem_iff, List.mem_map]
      constructor
      · rintro ⟨x, hx, hkx⟩
        rw [entryKey_inj (hs x hx) hpe hkx] at hx
        exact hx
      · intro hmem
        exact ⟨e, hmem, rfl⟩
    unfold dedupAux specDedupFirstAux
    rw [hcontains]
    by_cases hc : seenE.contains e = true
    · rw [if_pos hc, if_pos hc]
      exact ih (fun x hx => hl x (List.mem_cons_of_mem e hx)) hs
    · rw [if_neg hc, if_neg hc]
      refine congrArg (e :: ·) ?_
      have : entryKey e :: seenE.map entryKey = (e :: seenE).map entryKey := rfl
      rw [this]
      refine ih (fun x hx => hl x (List.mem_cons_of_mem e hx)) ?_
      intro x hx
      rcases List.mem_cons.mp hx with rfl | hx2
      · exact hpe
      · exact hs x hx2

/-! The cuisine-updated check is constantly false (shallow-copy aliasing). -/

theorem cuisineUpdatedAux_eq_false (origView : List Truck) :
    ∀ (rest : List Truck) (i : Nat),
      (∀ j, origView.get? (i + j) = none ∨ origView.get? (i + j) = rest.get? j) →
      cuisineUpdatedAux origView i rest = false := by
  intro rest
  induction rest with
  | nil => intro i _; rfl
  | cons t ts ih =>
    intro i h
    unfold cuisineUpdatedAux
    have h0 := h 0
    rw [Nat.add_zero] at h0
    have hhead : (match origView.get? i with
        | some orig => decide ¬(orig.cuisine = t.cuisine)
        | none => false) = false := by
      rcases h0 with h0 | h0 <;> rw [h0] <;> simp
    rw [hhead, Bool.false_or]
    apply ih (i + 1)
    intro j
    have hj := h (j + 1)
    rw [show i + (j + 1) = i + 1 + j by omega] at hj
    exact hj

theorem cuisineUpdatedCheck_eq_false (l : List Truck) (n : Nat) :
    cuisineUpdatedCheck l n = false := by
  unfold cuisineUpdatedCheck
  apply cuisineUpdatedAux_eq_false
  intro j
  rw [Nat.zero_add]
  by_cases hj : j < n
  · exact Or.inr (List.get?_take hj)
  · refine Or.inl (List.get?_eq_none.mpr ?_)
    rw [List.length_take]
    omega

/-! Claim theorems: merge/dedup (C4, C5). -/

/-- C5: the merge/dedup step is idempotent — for every prior schedule `P` and
every list of newly resolved entries `N`, merging the merge result again with
the same new entries gives the same deduplicated schedule, in particular
exactly the same set of (date, venue_id, truck_id) triples. -/
theorem merge_idempotent (P N : List Entry) :
    mergeEntries (mergeEntries P N) N = mergeEntries P N ∧
    ∀ e : Entry, (e ∈ mergeEntries (mergeEntries P N) N ↔ e ∈ mergeEntries P N) := by
  have hmain : mergeEntries (mergeEntries P N) N = mergeEntries P N := by
    show dedupEntries (dedupAux [] (P ++ N) ++ N) = dedupEntries (P ++ N)
    unfold dedupEntries
    rw [dedupAux_append]
    have h1 : dedupAux ([] : List JStr) (dedupAux [] (P ++ N)) = dedupAux [] (P ++ N) :=
      dedupAux_eq_self (keys_dedupAux_nodup [] (P ++ N)).1 (by simp)
    have h2 : dedupAux (dedupSeen [] (dedupAux [] (P ++ N))) N = [] := by
      apply dedupAux_eq_nil
      intro e he
      rw [mem_dedupSeen]
      refine Or.inr (mem_keys_dedupAux.mpr ⟨?_, by simp⟩)
      rw [List.map_append]
      exact List.mem_append_right _ (List.mem_map_of_mem _ he)
    rw [h1, h2, List.append_nil]
  exact ⟨hmain, fun e => by rw [hmain]⟩

/-- C4 counterexample: the dedup key joins the three fields with a pipe, so
two different triples can share a key; here the second triple occurs in the
concatenation but zero of its occurrences survive the merge, refuting
"exactly one occurrence of each triple (the first) survives". -/
theorem merge_dedup_triple_counterexample :
    (⟨"2026-01-01|x".toList, "v".toList, "t".toList⟩ : Entry) ≠
      (⟨"2026-01-01".toList, "x|v".toList, "t".toList⟩ : Entry) ∧
    (⟨"2026-01-01".toList, "x|v".toList, "t".toList⟩ : Entry) ∈
      ([⟨"2026-01-01|x".toList, "v".toList, "t".toList⟩] ++
        [⟨"2026-01-01".toList, "x|v".toList, "t".toList⟩] : List Entry) ∧
    mergeEntries [⟨"2026-01-01|x".toList, "v".toList, "t".toList⟩]
        [⟨"2026-01-01".toList, "x|v".toList, "t".toList⟩] =
      [⟨"2026-01-01|x".toList, "v".toList, "t".toList⟩] ∧
    (⟨"2026-01-01".toList, "x|v".toList, "t".toList⟩ : Entry) ∉
      mergeEntries [⟨"2026-01-01|x".toList, "v".toList, "t".toList⟩]
        [⟨"2026-01-01".toList, "x|v".toList, "t".toList⟩] := by
  refine ⟨by decide, by decide, by decide, by decide⟩

/-- C4 amended: after the merge no two surviving entries carry the same
(date, venue_id, truck_id) triple (an `Entry` is exactly that triple); and
whenever no field of any input entry contains the pipe character used as the
key delimiter, the merge keeps exactly the first occurrence of each triple
(it agrees with the spec-side keep-first-by-triple dedup). -/
theorem merge_dedup_unique_and_first (P N : List Entry) :
    (mergeEntries P N).Nodup ∧
    ((∀ e ∈ P ++ N, entryPipeFree e = true) →
      mergeEntries P N = specDedupFirst (P ++ N)) := by
  constructor
  · exact List.Nodup.of_map entryKey (keys_dedupAux_nodup [] (P ++ N)).1
  · intro hpf
    exact dedupAux_eq_specAux hpf (fun e he => absurd he (List.not_mem_nil e))

/-- Witness for the amended C4 theorem at a concrete pipe-free input. -/
theorem merge_dedup_unique_and_first_witness :
    (mergeEntries [⟨"2026-02-16".toList, "v1".toList, "t1".toList⟩]
        [⟨"2026-02-16".toList, "v1".toList, "t1".toList⟩,
         ⟨"2026-02-17".toList, "v1".toList, "t1".toList⟩]).Nodup ∧
    mergeEntries [⟨"2026-02-16".toList, "v1".toList, "t1".toList⟩]
        [⟨"2026-02-16".toList, "v1".toList, "t1".toList⟩,
         ⟨"2026-02-17".toList, "v1".toList, "t1".toList⟩] =
      specDedupFirst ([⟨"2026-02-16".toList, "v1".toList, "t1".toList⟩] ++
        [⟨"2026-02-16".toList, "v1".toList, "t1".toList⟩,
         ⟨"2026-02-17".toList, "v1".toList, "t1".toList⟩]) := by
  have h := merge_dedup_unique_and_first
    [⟨"2026-02-16".toList, "v1".toList, "t1".toList⟩]
    [⟨"2026-02-16".toList, "v1".toList, "t1".toList⟩,
     ⟨"2026-02-17".toList, "v1".toList, "t1".toList⟩]
  exact ⟨h.1, h.2 (by decide)⟩

/-! Claim theorems: orchestrator persistence decisions (C1, C2). -/

theorem main_schedule_eq (now : Nat) (t : List Truck) (e : List Entry)
    (rs : List SourceResult) :
    (main now t e rs).schedule =
      mergeEntries e ((rs.flatMap (fun r => r.entries)).foldl
        (resolveStep now) ⟨t, 0, []⟩).entries := rfl

theorem main_sourceRuns_eq (now : Nat) (t : List Truck) (e : List Entry)
    (rs : List SourceResult) :
    (main now t e rs).sourceRuns = rs.map (fun r =>
      { venue_id := r.venueId, status := r.status,
        entries_count := r.entries.length, error := r.error : SourceRun }) := rfl

/-- C1 counterexample: a concrete run in which every configured source ended
with status error still has the schedule artifact written (the write is
unconditional) and no fatal error raised, contradicting the claim that an
all-sources-failed run exits non-zero without overwriting schedule.json. -/
theorem all_failed_run_still_writes_schedule :
    ((main 0 [] [⟨"2026-02-16".toList, "v1".toList, "apple-truck".toList⟩]
        [⟨"v1".toList, "error".toList, [], some "boom".toList⟩,
         ⟨"v2".toList, "error".toList, [], some "boom".toList⟩]).sourceRuns.all
      (fun r => r.status == "error".toList)) = true ∧
    (main 0 [] [⟨"2026-02-16".toList, "v1".toList, "apple-truck".toList⟩]
        [⟨"v1".toList, "error".toList, [], some "boom".toList⟩,
         ⟨"v2".toList, "error".toList, [], some "boom".toList⟩]).sourceRuns ≠ [] ∧
    (main 0 [] [⟨"2026-02-16".toList, "v1".toList, "apple-truck".toList⟩]
        [⟨"v1".toList, "error".toList, [], some "boom".toList⟩,
         ⟨"v2".toList, "error".toList, [], some "boom".toList⟩]).scheduleWritten = true ∧
    (main 0 [] [⟨"2026-02-16".toList, "v1".toList, "apple-truck".toList⟩]
        [⟨"v1".toList, "error".toList, [], some "boom".toList⟩,
         ⟨"v2".toList, "error".toList, [], some "boom".toList⟩]).fatal = false := by
  refine ⟨by decide, by decide, rfl, rfl⟩

/-- C1 amended: when every source's run ends in error (error results carry no
entries, as `runWithRetry` guarantees), the orchestrator does not abort — it
finishes with no fatal error and rewrites the schedule artifact, whose entry
list is just the deduplicated carry-over; the all-sources-failed condition is
instead flagged by the separate validation script, whose blocking check fires
(non-zero exit there). -/
theorem all_failed_behavior (now : Nat) (trucks0 : List Truck)
    (existingEntries : List Entry) (results : List SourceResult)
    (hne : results ≠ [])
    (herr : ∀ r ∈ results, r.status = "error".toList)
    (hemp : ∀ r ∈ results, r.entries = []) :
    (main now trucks0 existingEntries results).scheduleWritten = true ∧
    (main now trucks0 existingEntries results).fatal = false ∧
    (main now trucks0 existingEntries results).schedule = dedupEntries existingEntries ∧
    validateAllScrapersFailed (main now trucks0 existingEntries results).sourceRuns = true := by
  have hraw : ∀ (rs : List SourceResult), (∀ r ∈ rs, r.entries = []) →
      rs.flatMap (fun r => r.entries) = [] := by
    intro rs
    induction rs with
    | nil => intro _; rfl
    | cons r rs ih =>
      intro h
      rw [List.flatMap_cons, h r (List.mem_cons_self r rs), List.nil_append]
      exact ih (fun x hx => h x (List.mem_cons_of_mem r hx))
  refine ⟨rfl, rfl, ?_, ?_⟩
  · rw [main_schedule_eq, hraw results hemp]
    show mergeEntries existingEntries [] = dedupEntries existingEntries
    unfold mergeEntries
    rw [List.append_nil]
  · rw [main_sourceRuns_eq]
    unfold validateAllScrapersFailed
    have hfilter : (results.map (fun r =>
        { venue_id := r.venueId, status := r.status,
          entries_count := r.entries.length, error := r.error : SourceRun })).filter
          (fun r => r.status == "error".toList) =
        results.map (fun r =>
        { venue_id := r.venueId, status := r.status,
          entries_count := r.entries.length, error := r.error : SourceRun }) := by
      apply List.filter_eq_self.mpr
      intro run hrun
      rcases List.mem_map.mp hrun with ⟨x, hx, rfl⟩
      simp [herr x hx]
    rw [hfilter]
    simp only [Bool.and_eq_true, beq_iff_eq, decide_eq_true_eq, true_and]
    rw [List.length_map]
    exact List.length_pos.mpr hne

/-- Witness for the amended C1 theorem at a concrete all-failed run. -/
theorem all_failed_behavior_witness :
    (([⟨"v1".toList, "error".toList, [], some "boom".toList⟩] : List SourceResult) ≠ [] ∧
      ∀ r ∈ ([⟨"v1".toList, "error".toList, [], some "boom".toList⟩] : List SourceResult),
        r.status = "error".toList ∧ r.entries = []) ∧
    (main 7 [] [⟨"2026-02-16".toList, "v1".toList, "t1".toList⟩]
        [⟨"v1".toList, "error".toList, [], some "boom".toList⟩]).scheduleWritten = true ∧
    (main 7 [] [⟨"2026-02-16".toList, "v1".toList, "t1".toList⟩]
        [⟨"v1".toList, "error".toList, [], some "boom".toList⟩]).fatal = false ∧
    (main 7 [] [⟨"2026-02-16".toList, "v1".toList, "t1".toList⟩]
        [⟨"v1".toList, "error".toList, [], some "boom".toList⟩]).schedule =
      dedupEntries [⟨"2026-02-16".toList, "v1".toList, "t1".toList⟩] ∧
    validateAllScrapersFailed (main 7 [] [⟨"2026-02-16".toList, "v1".toList, "t1".toList⟩]
        [⟨"v1".toList, "error".toList, [], some "boom".toList⟩]).sourceRuns = true := by
  refine ⟨⟨by decide, by decide⟩, ?_⟩
  exact all_failed_behavior 7 [] [⟨"2026-02-16".toList, "v1".toList, "t1".toList⟩]
    [⟨"v1".toList, "error".toList, [], some "boom".toList⟩]
    (by decide) (by decide) (by decide)

/-- In every run the registry-write decision reduces to "were new trucks
added": the cuisine-updated detector always reports false, because the
shallow copy makes it compare each truck object with itself. -/
theorem trucks_write_ignores_cuisine_updates (now : Nat) (trucks0 : List Truck)
    (existingEntries : List Entry) (results : List SourceResult) :
    (main now trucks0 existingEntries results).trucksWritten =
      decide (0 < (main now trucks0 existingEntries results).newTruckCount) := by
  show (decide (0 < _) || cuisineUpdatedCheck _ _) = _
  rw [cuisineUpdatedCheck_eq_false, Bool.or_false]
  rfl

/-- C2 (the code contradicts the claim): a concrete run with zero new trucks
in which resolution upgrades the only registry truck's cuisine from unknown
to italian in memory, yet the registry write condition evaluates to false, so
trucks.json is not rewritten. -/
theorem cuisine_upgrade_write_skipped :
    (main 0 [⟨"apple-truck".toList, "Apple Truck".toList, "unknown".toList, "?".toList, [], false, []⟩]
        [] [⟨"v1".toList, "ok".toList,
            [⟨"2026-02-16".toList, "v1".toList, "Apple Truck".toList, "pizza".toList⟩], none⟩]).newTruckCount = 0 ∧
    (main 0 [⟨"apple-truck".toList, "Apple Truck".toList, "unknown".toList, "?".toList, [], false, []⟩]
        [] [⟨"v1".toList, "ok".toList,
            [⟨"2026-02-16".toList, "v1".toList, "Apple Truck".toList, "pizza".toList⟩], none⟩]).finalTrucks =
      [⟨"apple-truck".toList, "Apple Truck".toList, "italian".toList, "イタリアン".toList, [], false, []⟩] ∧
    ([⟨"apple-truck".toList, "Apple Truck".toList, "italian".toList, "イタリアン".toList, [], false, []⟩] : List Truck) ≠
      [⟨"apple-truck".toList, "Apple Truck".toList, "unknown".toList, "?".toList, [], false, []⟩] ∧
    (main 0 [⟨"apple-truck".toList, "Apple Truck".toList, "unknown".toList, "?".toList, [], false, []⟩]
        [] [⟨"v1".toList, "ok".toList,
            [⟨"2026-02-16".toList, "v1".toList, "Apple Truck".toList, "pizza".toList⟩], none⟩]).trucksWritten = false := by
  refine ⟨by decide, by decide, by decide, by decide⟩

/-! Claim theorems: resolver tiers (C7, C8). -/

/-- C7: whenever the normalized raw name is an alias-table key whose id is
present in the registry, `findMatch` returns the (first) registry entry with
that id — the alias tier short-circuits every later tier, in particular an
exact normalized match of a different entry. -/
theorem alias_tier_short_circuits (now : Nat) (rawName : JStr) (trucks : List Truck)
    (aliasId : JStr)
    (halias : aliasLookup (normalizeName rawName) = some aliasId)
    (hpresent : ∃ t ∈ trucks, t.id = aliasId) :
    findMatch now rawName trucks =
      (findFirstIdx (fun t => t.id == aliasId) trucks).bind (fun i => trucks.get? i) ∧
    ∃ u, findMatch now rawName trucks = some u ∧ u.id = aliasId := by
  have hsome : ∃ i, findFirstIdx (fun t => t.id == aliasId) trucks = some i := by
    apply findFirstIdx_isSome
    rcases hpresent with ⟨t, ht, hid⟩
    exact ⟨t, ht, beq_iff_eq.mpr hid⟩
  rcases hsome with ⟨i, hi⟩
  have heq : findMatch now rawName trucks =
      (findFirstIdx (fun t => t.id == aliasId) trucks).bind (fun j => trucks.get? j) := by
    unfold findMatch findMatchIdx
    simp only [halias, hi]
    rfl
  refine ⟨heq, ?_⟩
  rcases findFirstIdx_spec hi with ⟨u, hu, hpu⟩
  refine ⟨u, ?_, beq_iff_eq.mp hpu⟩
  rw [heq, hi]
  exact hu

/-- Witness for C7: raw name mr.chicken is an alias-table key mapping to
mr-chicken; the registry lists first a different truck whose normalized name
equals the normalized raw name (an exact-tier match), then the mr-chicken
entry; `findMatch` returns the mr-chicken entry. -/
theorem alias_tier_short_circuits_witness :
    aliasLookup (normalizeName "mr.chicken".toList) = some "mr-chicken".toList ∧
    (∃ t ∈ ([⟨"other-id".toList, "Mr.Chicken".toList, "unknown".toList, "?".toList, [], false, []⟩,
            ⟨"mr-chicken".toList, "Chicken Shop".toList, "chicken".toList, "チキン".toList, [], false, []⟩] :
            List Truck),
      t.id = "mr-chicken".toList) ∧
    (∃ u, findMatch 0 "mr.chicken".toList
        [⟨"other-id".toList, "Mr.Chicken".toList, "unknown".toList, "?".toList, [], false, []⟩,
         ⟨"mr-chicken".toList, "Chicken Shop".toList, "chicken".toList, "チキン".toList, [], false, []⟩] = some u ∧
      u.id = "mr-chicken".toList) ∧
    normalizeName ("Mr.Chicken".toList) = normalizeName "mr.chicken".toList := by
  refine ⟨by decide, by decide, ?_, by decide⟩
  exact (alias_tier_short_circuits 0 "mr.chicken".toList
    [⟨"other-id".toList, "Mr.Chicken".toList, "unknown".toList, "?".toList, [], false, []⟩,
     ⟨"mr-chicken".toList, "Chicken Shop".toList, "chicken".toList, "チキン".toList, [], false, []⟩]
    "mr-chicken".toList (by decide) (by decide)).2

/-- C8: a raw name whose normalized form has at most three characters can
never be matched by the substring tier against any registry: that tier
selects nothing, and `findMatch` reduces to the alias, exact and derived-id
tiers alone. -/
theorem substring_floor (now : Nat) (rawName : JStr) (trucks : List Truck)
    (hshort : (normalizeName rawName).length ≤ 3) :
    findFirstIdx (fun t => substringHit (normalizeName rawName) (normalizeName t.name))
      trucks = none ∧
    findMatch now rawName trucks =
      ((((match aliasLookup (normalizeName rawName) with
          | some aliasId => findFirstIdx (fun (t : Truck) => t.id == aliasId) trucks
          | none => none : Option Nat)).orElse (fun _ =>
           findFirstIdx (fun (t : Truck) => normalizeName t.name == normalizeName rawName) trucks)).orElse
        (fun _ => findFirstIdx (fun (t : Truck) => t.id == generateId now rawName) trucks)).bind
        (fun i => trucks.get? i) := by
  have hsub : ∀ t : Truck,
      substringHit (normalizeName rawName) (normalizeName t.name) = false := by
    intro t
    unfold substringHit
    have : ¬(4 ≤ min (normalizeName rawName).length (normalizeName t.name).length) := by
      have := Nat.min_le_left (normalizeName rawName).length (normalizeName t.name).length
      omega
    rw [decide_eq_false this, Bool.false_and]
  have hnone : findFirstIdx
      (fun t => substringHit (normalizeName rawName) (normalizeName t.name)) trucks = none :=
    findFirstIdx_eq_none (fun t _ => hsub t)
  refine ⟨hnone, ?_⟩
  unfold findMatch findMatchIdx
  simp only [hnone]
  cases h1 : ((match aliasLookup (normalizeName rawName) with
      | some aliasId => findFirstIdx (fun (t : Truck) => t.id == aliasId) trucks
      | none => none : Option Nat)).orElse (fun _ =>
        findFirstIdx (fun (t : Truck) => normalizeName t.name == normalizeName rawName) trucks) with
  | none => rfl
  | some v => rfl

/-- Witness for C8: the three-character name abc resolves to nothing against
a registry whose only entry abcdef would be a substring hit were it not for
the four-character floor. -/
theorem substring_floor_witness :
    (normalizeName "abc".toList).length ≤ 3 ∧
    findFirstIdx (fun (t : Truck) => substringHit (normalizeName "abc".toList) (normalizeName t.name))
      [⟨"abcdef".toList, "abcdef".toList, "unknown".toList, "?".toList, [], false, []⟩] = none ∧
    findMatch 0 "abc".toList
      [⟨"abcdef".toList, "abcdef".toList, "unknown".toList, "?".toList, [], false, []⟩] = none ∧
    jsIncludes (normalizeName "abcdef".toList) (normalizeName "abc".toList) = true := by
  have h := substring_floor 0 "abc".toList
    [⟨"abcdef".toList, "abcdef".toList, "unknown".toList, "?".toList, [], false, []⟩]
    (by decide)
  refine ⟨by decide, h.1, ?_, by decide⟩
  rw [h.2]
  decide

/-! Claim theorems: cuisine classifier (C6). -/

theorem detectScan_first (combined : JStr) :
    ∀ (cats : List CuisineCategory) (i : Nat) (cat : CuisineCategory),
      cats.get? i = some cat →
      cat.keywords.any (fun k => jsIncludes combined k) = true →
      (∀ j catj, j < i → cats.get? j = some catj →
        catj.keywords.any (fun k => jsIncludes combined k) = false) →
      detectScan combined cats = (cat.key, cat.label) := by
  intro cats
  induction cats with
  | nil => intro i cat hget; cases hget
  | cons c rest ih =>
    intro i cat hget hhit hbefore
    cases i with
    | zero =>
      rw [List.get?_cons_zero] at hget
      cases hget
      unfold detectScan
      rw [if_pos hhit]
    | succ i2 =>
      rw [List.get?_cons_succ] at hget
      have hc : c.keywords.any (fun k => jsIncludes combined k) = false :=
        hbefore 0 c (Nat.succ_pos i2) rfl
      unfold detectScan
      rw [if_neg (by simp [hc])]
      refine ih i2 cat hget hhit ?_
      intro j catj hj hgj
      exact hbefore (j + 1) catj (by omega) (by rw [List.get?_cons_succ]; exact hgj)

/-- C6: the cuisine classifier is deterministic (equal arguments give equal
results), and whenever some category at position i of the ordered taxonomy
has a keyword occurring in the normalized combined text, a later category at
position j also has one, and no category before i matches, the classifier
returns category i's key and label — the earlier, more specific category is
never overridden by the later broad one. -/
theorem detectCuisine_deterministic_and_specific :
    (∀ (n₁ e₁ n₂ e₂ : JStr), n₁ = n₂ → e₁ = e₂ →
      detectCuisine n₁ e₁ = detectCuisine n₂ e₂) ∧
    (∀ (name extra : JStr) (i j : Nat) (cati catj : CuisineCategory),
      i < j →
      CUISINE_KEYWORDS.get? i = some cati →
      CUISINE_KEYWORDS.get? j = some catj →
      cati.keywords.any (fun k => jsIncludes (normalizeName (name ++ ' ' :: extra)) k) = true →
      catj.keywords.any (fun k => jsIncludes (normalizeName (name ++ ' ' :: extra)) k) = true →
      (∀ i2 cati2, i2 < i → CUISINE_KEYWORDS.get? i2 = some cati2 →
        cati2.keywords.any (fun k => jsIncludes (normalizeName (name ++ ' ' :: extra)) k) = false) →
      detectCuisine name extra = (cati.key, cati.label)) := by
  constructor
  · intro n₁ e₁ n₂ e₂ h1 h2
    rw [h1, h2]
  · intro name extra i j cati catj hij hgi hgj hhiti hhitj hbefore
    exact detectScan_first (normalizeName (name ++ ' ' :: extra))
      CUISINE_KEYWORDS i cati hgi hhiti hbefore

/-- Witness for C6: on the name pocha with detail text thai, the korean
category (position 2) and the broad asian category (position 10) both match,
no earlier category matches, and the classifier returns korean. -/
theorem detectCuisine_deterministic_and_specific_witness :
    CUISINE_KEYWORDS.get? 2 =
      some ⟨"korean".toList, "韓国料理".toList,
        ["korea".toList, "bibimbap".toList, "pocha".toList, "韓国".toList, "ビビンバ".toList,
         "ポチャ".toList, "チヂミ".toList, "k-food".toList, "韓美味".toList]⟩ ∧
    (CUISINE_KEYWORDS.get? 10).map (fun c => c.key) = some "asian".toList ∧
    detectCuisine "pocha".toList "thai".toList = ("korean".toList, "韓国料理".toList) := by
  refine ⟨by decide, by decide, ?_⟩
  have h := detectCuisine_deterministic_and_specific.2 "pocha".toList "thai".toList 2 10
    ⟨"korean".toList, "韓国料理".toList,
      ["korea".toList, "bibimbap".toList, "pocha".toList, "韓国".toList, "ビビンバ".toList,
       "ポチャ".toList, "チヂミ".toList, "k-food".toList, "韓美味".toList]⟩
    ⟨"asian".toList, "アジアン".toList,
      ["asian".toList, "thai".toList, "gapao".toList, "nasi".toList, "adobo".toList,
       "taiwan".toList, "アジアン".toList, "タイ".toList, "ガパオ".toList, "ナシゴレン".toList,
       "アドボ".toList, "台湾".toList, "ルーロー".toList, "ナンロール".toList, "ナン".toList,
       "スパイス".toList]⟩
    (by omega) (by decide) (by decide) (by decide) (by decide) ?_
  · exact h
  · intro i2 cati2 hi2 hget
    have : i2 = 0 ∨ i2 = 1 := by omega
    rcases this with rfl | rfl
    · rw [show CUISINE_KEYWORDS.get? 0 =
          some ⟨"hawaiian".toList, "ハワイアン".toList,
            ["hawaii".toList, "poke".toList, "loco".toList, "ポキ".toList, "ロコモコ".toList,
             "aloha".toList]⟩ from by decide] at hget
      cases hget
      decide
    · rw [show CUISINE_KEYWORDS.get? 1 =
          some ⟨"kebab".toList, "ケバブ".toList,
            ["kebab".toList, "ケバブ".toList, "ハラル".toList, "halal".toList,
             "ファラフェル".toList, "falafel".toList]⟩ from by decide] at hget
      cases hget
      decide

/-! Claim theorems: date parsing (C10). -/

theorem stripParenFrom_eq_self {s : JStr} (h : ∀ c ∈ s, isOpenParen c = false) :
    stripParenFrom s = s := by
  induction s with
  | nil => rfl
  | cons c rest ih =>
    unfold stripParenFrom
    rw [if_neg (by simp [h c (List.mem_cons_self c rest)]),
      ih (fun x hx => h x (List.mem_cons_of_mem c hx))]

theorem jsTrim_eq_self {s : JStr} (h : ∀ c ∈ s, isJsWhitespace c = false) :
    jsTrim s = s := by
  unfold jsTrim
  rw [dropWhile_eq_self_of_all h,
    dropWhile_eq_self_of_all (fun c hc => h c (List.mem_reverse.mp hc)),
    List.reverse_reverse]

theorem isDigitChar_not_openParen {c : Char} (h : isDigitChar c = true) :
    isOpenParen c = false := by
  rw [Bool.eq_false_iff]
  intro ht
  simp only [isOpenParen, Bool.or_eq_true, decide_eq_true_eq] at ht
  rcases ht with rfl | rfl
  · exact absurd h (by decide)
  · exact absurd h (by decide)

theorem isDigitChar_not_ws {c : Char} (h : isDigitChar c = true) :
    isJsWhitespace c = false := by
  rw [Bool.eq_false_iff]
  intro ht
  have h1 := (isJsWhitespace_iff c).mp ht
  have h2 := (isDigitChar_iff c).mp h
  omega

theorem digitSlash : isDigitChar '/' = false := by decide

/-- Helper for C10: on every input of shape month-slash-day with one- or
two-digit numeric components, `parseJapaneseDate` returns the zero-padded
hyphen-joined string built from the given year and the raw components, with
no calendar-range check. -/
theorem parseJapaneseDate_shape (year : Nat) (m d : JStr)
    (hm : ∀ c ∈ m, isDigitChar c = true) (hm1 : 1 ≤ m.length) (hm2 : m.length ≤ 2)
    (hd : ∀ c ∈ d, isDigitChar c = true) (hd1 : 1 ≤ d.length) (hd2 : d.length ≤ 2) :
    parseJapaneseDate (m ++ '/' :: d) year =
      some (Nat.toDigits 10 year ++ '-' :: (pad2 m ++ '-' :: pad2 d)) := by
  have hclean : jsTrim (stripParenFrom (m ++ '/' :: d)) = m ++ '/' :: d := by
    have hnp : ∀ c ∈ m ++ '/' :: d, isOpenParen c = false := by
      intro c hcm
      rcases List.mem_append.mp hcm with h | h
      · exact isDigitChar_not_openParen (hm c h)
      · rcases List.mem_cons.mp h with rfl | h
        · decide
        · exact isDigitChar_not_openParen (hd c h)
    have hnw : ∀ c ∈ m ++ '/' :: d, isJsWhitespace c = false := by
      intro c hcm
      rcases List.mem_append.mp hcm with h | h
      · exact isDigitChar_not_ws (hm c h)
      · rcases List.mem_cons.mp h with rfl | h
        · decide
        · exact isDigitChar_not_ws (hd c h)
    rw [stripParenFrom_eq_self hnp, jsTrim_eq_self hnw]
  obtain ⟨a, m2, rfl⟩ : ∃ a m2, m = a :: m2 := by
    cases m with
    | nil => simp at hm1
    | cons a m2 => exact ⟨a, m2, rfl⟩
  obtain ⟨c, d2, rfl⟩ : ∃ c d2, d = c :: d2 := by
    cases d with
    | nil => simp at hd1
    | cons c d2 => exact ⟨c, d2, rfl⟩
  have ha : isDigitChar a = true := hm a (List.mem_cons_self _ _)
  have hc : isDigitChar c = true := hd c (List.mem_cons_self _ _)
  have hane : ¬(a = '/') := by
    intro h
    subst h
    exact absurd ha (by decide)
  simp only [parseJapaneseDate, hclean]
  cases m2 with
  | nil =>
    cases d2 with
    | nil =>
      simp [matchRegex1, matchMD, takeDigits, ha, hc, digitSlash, hane,
        Option.orElse, pad2, List.replicate]
    | cons e d3 =>
      cases d3 with
      | nil =>
        have he : isDigitChar e = true := hd e (by simp)
        simp [matchRegex1, matchMD, takeDigits, ha, hc, he, digitSlash, hane,
          Option.orElse, pad2, List.replicate]
      | cons x d4 =>
        simp only [List.length_cons] at hd2
        omega
  | cons b m3 =>
    have hb : isDigitChar b = true := hm b (by simp)
    cases m3 with
    | nil =>
      cases d2 with
      | nil =>
        simp [matchRegex1, matchMD, takeDigits, ha, hb, hc, digitSlash, hane,
          Option.orElse, pad2, List.replicate]
      | cons e d3 =>
        cases d3 with
        | nil =>
          have he : isDigitChar e = true := hd e (by simp)
          simp [matchRegex1, matchMD, takeDigits, ha, hb, hc, he, digitSlash, hane,
            Option.orElse, pad2, List.replicate]
        | cons x d4 =>
          simp only [List.length_cons] at hd2
          omega
    | cons x m4 =>
      simp only [List.length_cons] at hm2
      omega

/-- C10: `parseJapaneseDate` performs no calendar-range validation — every
month-slash-day input with one- or two-digit components yields the zero-padded
joined string with the components unchecked, and in particular the input
13/45 yields 2026-13-45, which is not a valid calendar date, instead of null. -/
theorem parseJapaneseDate_no_range_validation :
    (∀ (year : Nat) (m d : JStr),
      (∀ c ∈ m, isDigitChar c = true) → 1 ≤ m.length → m.length ≤ 2 →
      (∀ c ∈ d, isDigitChar c = true) → 1 ≤ d.length → d.length ≤ 2 →
      parseJapaneseDate (m ++ '/' :: d) year =
        some (Nat.toDigits 10 year ++ '-' :: (pad2 m ++ '-' :: pad2 d))) ∧
    parseJapaneseDate "13/45".toList 2026 = some "2026-13-45".toList ∧
    validDateString "2026-13-45".toList = false := by
  exact ⟨parseJapaneseDate_shape, by decide, by decide⟩

/-- Witness for C10 at the concrete input 13/45 with year 2026. -/
theorem parseJapaneseDate_no_range_validation_witness :
    parseJapaneseDate ("13".toList ++ '/' :: "45".toList) 2026 =
      some (Nat.toDigits 10 2026 ++ '-' :: (pad2 "13".toList ++ '-' :: pad2 "45".toList)) := by
  exact parseJapaneseDate_no_range_validation.1 2026 "13".toList "45".toList
    (by decide) (by decide) (by decide) (by decide) (by decide) (by decide)

/-! Membership lemmas for the normalization stages (C3, C9). -/

theorem mem_collapseWsAux_of_mem {c : Char} {l : JStr}
    (hc : c ∈ l) (hw : isJsWhitespace c = false) : ∀ b, c ∈ collapseWsAux b l := by
  induction l with
  | nil => cases hc
  | cons x xs ih =>
    intro b
    unfold collapseWsAux
    by_cases hx : isJsWhitespace x = true
    · have hcx : c ∈ xs := by
        rcases List.mem_cons.mp hc with rfl | h2
        · rw [hw] at hx; cases hx
        · exact h2
      rw [if_pos hx]
      by_cases hb : b = true
      · subst hb; rw [if_pos rfl]; exact ih hcx true
      · rw [if_neg hb]; exact List.mem_cons_of_mem _ (ih hcx true)
    · rw [if_neg hx]
      rcases List.mem_cons.mp hc with rfl | h2
      · exact List.mem_cons_self _ _
      · exact List.mem_cons_of_mem _ (ih h2 false)

theorem mem_of_wsToHyphenAux {c : Char} : ∀ {b : Bool} {l : JStr},
    c ∈ wsToHyphenAux b l → c = '-' ∨ (c ∈ l ∧ isJsWhitespace c = false) := by
  intro b l
  induction l generalizing b with
  | nil => intro h; cases h
  | cons x xs ih =>
    intro h
    unfold wsToHyphenAux at h
    by_cases hx : isJsWhitespace x = true
    · rw [if_pos hx] at h
      by_cases hb : b = true
      · subst hb
        rw [if_pos rfl] at h
        rcases ih h with h2 | h2
        · exact Or.inl h2
        · exact Or.inr ⟨List.mem_cons_of_mem x h2.1, h2.2⟩
      · rw [if_neg hb] at h
        rcases List.mem_cons.mp h with rfl | h2
        · exact Or.inl rfl
        · rcases ih h2 with h3 | h3
          · exact Or.inl h3
          · exact Or.inr ⟨List.mem_cons_of_mem x h3.1, h3.2⟩
    · rw [if_neg hx] at h
      rcases List.mem_cons.mp h with rfl | h2
      · exact Or.inr ⟨List.mem_cons_self _ _, Bool.eq_false_iff.mpr hx⟩
      · rcases ih h2 with h3 | h3
        · exact Or.inl h3
        · exact Or.inr ⟨List.mem_cons_of_mem x h3.1, h3.2⟩

theorem mem_wsToHyphenAux_of_mem {c : Char} {l : JStr}
    (hc : c ∈ l) (hw : isJsWhitespace c = false) : ∀ b, c ∈ wsToHyphenAux b l := by
  induction l with
  | nil => cases hc
  | cons x xs ih =>
    intro b
    unfold wsToHyphenAux
    by_cases hx : isJsWhitespace x = true
    · have hcx : c ∈ xs := by
        rcases List.mem_cons.mp hc with rfl | h2
        · rw [hw] at hx; cases hx
        · exact h2
      rw [if_pos hx]
      by_cases hb : b = true
      · subst hb; rw [if_pos rfl]; exact ih hcx true
      · rw [if_neg hb]; exact List.mem_cons_of_mem _ (ih hcx true)
    · rw [if_neg hx]
      rcases List.mem_cons.mp hc with rfl | h2
      · exact List.mem_cons_self _ _
      · exact List.mem_cons_of_mem _ (ih h2 false)

theorem mem_of_collapseHyphensAux {c : Char} : ∀ {b : Bool} {l : JStr},
    c ∈ collapseHyphensAux b l → c = '-' ∨ c ∈ l := by
  intro b l
  induction l generalizing b with
  | nil => intro h; cases h
  | cons x xs ih =>
    intro h
    unfold collapseHyphensAux at h
    by_cases hx : x = '-'
    · rw [if_pos hx] at h
      by_cases hb : b = true
      · subst hb
        rw [if_pos rfl] at h
        rcases ih h with h2 | h2
        · exact Or.inl h2
        · exact Or.inr (List.mem_cons_of_mem x h2)
      · rw [if_neg hb] at h
        rcases List.mem_cons.mp h with rfl | h2
        · exact Or.inl rfl
        · rcases ih h2 with h3 | h3
          · exact Or.inl h3
          · exact Or.inr (List.mem_cons_of_mem x h3)
    · rw [if_neg hx] at h
      rcases List.mem_cons.mp h with rfl | h2
      · exact Or.inr (List.mem_cons_self _ _)
      · rcases ih h2 with h3 | h3
        · exact Or.inl h3
        · exact Or.inr (List.mem_cons_of_mem x h3)

theorem mem_collapseHyphensAux_of_mem {c : Char} {l : JStr}
    (hc : c ∈ l) (hh : ¬(c = '-')) : ∀ b, c ∈ collapseHyphensAux b l := by
  induction l with
  | nil => cases hc
  | cons x xs ih =>
    intro b
    unfold collapseHyphensAux
    by_cases hx : x = '-'
    · have hcx : c ∈ xs := by
        rcases List.mem_cons.mp hc with rfl | h2
        · exact absurd hx hh
        · exact h2
      rw [if_pos hx]
      by_cases hb : b = true
      · subst hb; rw [if_pos rfl]; exact ih hcx true
      · rw [if_neg hb]; exact List.mem_cons_of_mem _ (ih hcx true)
    · rw [if_neg hx]
      rcases List.mem_cons.mp hc with rfl | h2
      · exact List.mem_cons_self _ _
      · exact List.mem_cons_of_mem _ (ih h2 false)

theorem mem_of_dropLeadHyphen {c : Char} {s : JStr}
    (h : c ∈ dropLeadHyphen s) : c ∈ s := by
  cases s with
  | nil => cases h
  | cons x xs =>
    rw [show dropLeadHyphen (x :: xs) = if x = '-' then xs else x :: xs from rfl] at h
    by_cases hx : x = '-'
    · rw [if_pos hx] at h
      exact List.mem_cons_of_mem _ h
    · rwa [if_neg hx] at h

theorem mem_dropLeadHyphen_of_mem {c : Char} {s : JStr}
    (hc : c ∈ s) (hne : ¬(c = '-')) : c ∈ dropLeadHyphen s := by
  cases s with
  | nil => cases hc
  | cons x xs =>
    rw [show dropLeadHyphen (x :: xs) = if x = '-' then xs else x :: xs from rfl]
    by_cases hx : x = '-'
    · rw [if_pos hx]
      rcases List.mem_cons.mp hc with rfl | h2
      · exact absurd hx hne
      · exact h2
    · rwa [if_neg hx]

theorem mem_of_trimOneHyphen {c : Char} {s : JStr}
    (h : c ∈ trimOneHyphen s) : c ∈ s := by
  unfold trimOneHyphen at h
  have h1 := List.mem_reverse.mp (mem_of_dropLeadHyphen (List.mem_reverse.mp h))
  exact mem_of_dropLeadHyphen h1

theorem mem_trimOneHyphen_of_mem {c : Char} {s : JStr}
    (hc : c ∈ s) (hne : ¬(c = '-')) : c ∈ trimOneHyphen s := by
  unfold trimOneHyphen
  rw [List.mem_reverse]
  exact mem_dropLeadHyphen_of_mem
    (List.mem_reverse.mpr (mem_dropLeadHyphen_of_mem hc hne)) hne

/-! Lemmas about the canonical composition pass. -/

theorem digitChar_amended {n : Nat} (h : n < 10) :
    amendedIdChar (Nat.digitChar n) = true := by
  interval_cases n <;> decide

theorem toDigitsCore_amended : ∀ (fuel n : Nat) (acc : JStr),
    (∀ c ∈ acc, amendedIdChar c = true) →
    ∀ c ∈ Nat.toDigitsCore 10 fuel n acc, amendedIdChar c = true := by
  intro fuel
  induction fuel with
  | zero => intro n acc hacc c hc; exact hacc c hc
  | succ fuel ih =>
    intro n acc hacc c hc
    have hred : Nat.toDigitsCore 10 (fuel + 1) n acc =
        if n / 10 = 0 then (n % 10).digitChar :: acc
        else Nat.toDigitsCore 10 fuel (n / 10) ((n % 10).digitChar :: acc) := rfl
    have hd : amendedIdChar ((n % 10).digitChar) = true :=
      digitChar_amended (Nat.mod_lt _ (by norm_num))
    rw [hred] at hc
    by_cases h0 : n / 10 = 0
    · rw [if_pos h0] at hc
      rcases List.mem_cons.mp hc with rfl | hc2
      · exact hd
      · exact hacc c hc2
    · rw [if_neg h0] at hc
      refine ih (n / 10) ((n % 10).digitChar :: acc) ?_ c hc
      intro x hx
      rcases List.mem_cons.mp hx with rfl | hx2
      · exact hd
      · exact hacc x hx2

theorem toDigits_amended (n : Nat) :
    ∀ c ∈ Nat.toDigits 10 n, amendedIdChar c = true :=
  toDigitsCore_amended (n + 1) n [] (fun x hx => by cases hx)

/-! Claim theorems: id derivation (C3). -/

theorem isWordChar_not_ws {c : Char} (h : isWordChar c = true) :
    isJsWhitespace c = false := by
  rw [Bool.eq_false_iff]
  intro ht
  have h1 := (isJsWhitespace_iff c).mp ht
  have h2 := (isWordChar_iff c).mp h
  omega

theorem isWordChar_not_decoration {c : Char} (h : isWordChar c = true) :
    isDecoration c = false := by
  rw [Bool.eq_false_iff]
  intro ht
  have h1 := (isDecoration_iff c).mp ht
  have h2 := (isWordChar_iff c).mp h
  omega

theorem isWordChar_nfkc {c : Char} (h : isWordChar c = true) : nfkcChar c = c := by
  have h2 := (isWordChar_iff c).mp h
  exact nfkcChar_eq_self (by omega) (by omega)

theorem isWordChar_toLowerChar {c : Char} (h : isWordChar c = true) :
    isWordChar (toLowerChar c) = true := by
  rw [isWordChar_iff, toLowerChar_toNat]
  have h2 := (isWordChar_iff c).mp h
  by_cases hu : 65 ≤ c.toNat ∧ c.toNat ≤ 90
  · rw [if_pos hu]; omega
  · rw [if_neg hu]; omega

theorem isWordChar_ne_hyphen {c : Char} (h : isWordChar c = true) : ¬(c = '-') := by
  intro hc
  subst hc
  exact absurd h (by decide)

theorem amendedIdChar_iff (c : Char) : amendedIdChar c = true ↔
    ((97 ≤ c.toNat ∧ c.toNat ≤ 122) ∨ (48 ≤ c.toNat ∧ c.toNat ≤ 57) ∨
     c.toNat = 95 ∨ c.toNat = 45) := by
  simp only [amendedIdChar, Bool.or_eq_true, Bool.and_eq_true, decide_eq_true_eq]
  tauto

/-- Every character of the pre-fallback slug is a lowercase letter, digit,
underscore or hyphen: the filter admits only word characters, whitespace and
hyphens, whitespace runs become hyphens, and lowercasing has removed the
uppercase range. -/
theorem generateIdCore_charset (s : JStr) :
    ∀ c ∈ generateIdCore s, amendedIdChar c = true := by
  intro c hc
  have hc8 := mem_of_trimOneHyphen hc
  rcases mem_of_collapseHyphensAux hc8 with rfl | hc7
  · decide
  · rcases mem_of_wsToHyphenAux hc7 with rfl | ⟨hc6, hcnotws⟩
    · decide
    · rcases List.mem_filter.mp hc6 with ⟨hcmem, hcpred⟩
      rcases List.mem_map.mp hcmem with ⟨u, _, rfl⟩
      have hnotupper := toLowerChar_not_upper u
      simp only [Bool.or_eq_true, decide_eq_true_eq] at hcpred
      rcases hcpred with (hcw | hcws) | hchy
      · have h2 := (isWordChar_iff (toLowerChar u)).mp hcw
        rw [amendedIdChar_iff]
        omega
      · rw [hcws] at hcnotws
        cases hcnotws
      · rw [hchy]
        decide

/-- C3 amended: for every non-empty, non-whitespace-only input containing at
least one ASCII word character, `generateId` returns a non-empty string whose
every character is a lowercase letter, digit, underscore or hyphen.  Two
deviations from the original claim are forced by the code: the word-character
class keeps underscores, so they survive into ids; and canonical composition
during normalization can fuse the only word character with a combining mark
into a non-ASCII letter that the filter then strips, in which case the
timestamp fallback fires — its output truck-<digits> also lies in this set. -/
theorem generateId_nonempty_and_charset (now : Nat) (s : JStr)
    (hne : s ≠ []) (hnw : ¬(∀ c ∈ s, isJsWhitespace c = true))
    (hword : ∃ c ∈ s, isWordChar c = true) :
    generateId now s ≠ [] ∧ ∀ c ∈ generateId now s, amendedIdChar c = true := by
  unfold generateId
  cases hcore : generateIdCore s with
  | nil =>
    rw [if_pos (by simp)]
    constructor
    · simp
    · intro c hc
      rcases List.mem_append.mp hc with h | h
      · have htr : ∀ x ∈ "truck-".toList, amendedIdChar x = true := by decide
        exact htr c h
      · exact toDigits_amended now c h
  | cons x xs =>
    rw [if_neg (by simp)]
    refine ⟨by simp, ?_⟩
    intro c hc
    rw [← hcore] at hc
    exact generateIdCore_charset s c hc

/-- Witness for the amended C3 theorem at the input a_b. -/
theorem generateId_nonempty_and_charset_witness :
    ("a_b".toList ≠ [] ∧ ¬(∀ c ∈ "a_b".toList, isJsWhitespace c = true) ∧
      (∃ c ∈ "a_b".toList, isWordChar c = true)) ∧
    generateId 5 "a_b".toList ≠ [] ∧
    ∀ c ∈ generateId 5 "a_b".toList, amendedIdChar c = true := by
  refine ⟨⟨by decide, by decide, by decide⟩, ?_⟩
  exact generateId_nonempty_and_charset 5 "a_b".toList (by decide) (by decide) (by decide)

/-- Canonical composition can defeat the slug entirely: the letter e followed
by a combining acute accent NFKC-composes to the single letter, which the
word-character filter strips, so the slug is empty and the timestamp fallback
fires although the input contains the ASCII word character e. -/
theorem generateId_combining_fallback :
    isWordChar 'e' = true ∧ 'e' ∈ (['e', Char.ofNat 769] : JStr) ∧
    normalizeName ['e', Char.ofNat 769] = ['é'] ∧
    generateIdCore ['e', Char.ofNat 769] = [] ∧
    generateId 12345 ['e', Char.ofNat 769] = "truck-12345".toList := by
  refine ⟨by decide, by decide, by decide, by decide, by decide⟩

/-- C3 counterexample: the input a_b is non-empty, not whitespace-only and
contains word characters, yet `generateId` returns a_b, whose underscore is
outside the claimed lowercase-digit-hyphen character set. -/
theorem generateId_underscore_counterexample :
    "a_b".toList ≠ [] ∧
    ¬(∀ c ∈ "a_b".toList, isJsWhitespace c = true) ∧
    (∃ c ∈ "a_b".toList, isWordChar c = true) ∧
    generateId 0 "a_b".toList = "a_b".toList ∧
    '_' ∈ generateId 0 "a_b".toList ∧
    claimIdChar '_' = false := by
  refine ⟨by decide, by decide, by decide, by decide, by decide, by decide⟩

/-! Claim theorems: normalization idempotence (C9). -/

end FoodTruck
